import Mathlib

/-!
# Verification of the RL-Optimised-Compiler front end and optimizer

A shallow embedding, in Lean 4, of the compiler pipeline implemented in
`src/api` of the repository: lexer (`lexer.py`), parser (`parser.py`),
semantic analyzer (`semantic_analyzer.py`), three-address-code generator
(`intermediate_code.py`) and the deterministic optimizer driver with its
rewrite primitives (`rl_optimizer.py`).

Modelling conventions:
* Python lists become `List`, `None`-able strings become `Option String`.
* Python's numeric domain for constant folding and number literals is IEEE
  double; here numeric values are modelled as exact rationals `ℚ`.  Every
  program considered in the theorems below only exercises values on which
  the two agree (small integers and finite decimals).
* Python exceptions become `Except`/`Option` results.
* Python `while` loops and recursion are modelled by structural recursion,
  using an explicit fuel argument where the Python loop is not structurally
  decreasing.  Where the original recursion is in fact bounded, the fuel is
  instantiated so that it never runs out, and this is proved.
* `str.isalpha`/`isdigit` are modelled by their ASCII restrictions; the
  programs analysed here are ASCII.
-/

/-! ## Decimal rendering of numbers (Python `str` on `int`/`float`) -/

/-- One decimal digit as a character. -/
def digitChar : Nat → Char
  | 0 => '0'
  | 1 => '1'
  | 2 => '2'
  | 3 => '3'
  | 4 => '4'
  | 5 => '5'
  | 6 => '6'
  | 7 => '7'
  | 8 => '8'
  | 9 => '9'
  | _ => '*'

/-- Decimal digits of `n`, most significant first; fuel-structural so that it
evaluates by `rfl`.  `natToStrAux (n+1) n` gives the digits of `n ≠ 0`. -/
def natToStrAux : Nat → Nat → List Char
  | 0, _ => []
  | _ + 1, 0 => []
  | fuel + 1, n + 1 => natToStrAux fuel ((n + 1) / 10) ++ [digitChar ((n + 1) % 10)]

/-- Decimal rendering of a natural number (Python `str(n)`). -/
def natToStr (n : Nat) : String :=
  if n = 0 then "0" else String.mk (natToStrAux (n + 1) n)

/-- Decimal rendering of an integer (Python `str(i)`). -/
def intStr : Int → String
  | .ofNat n => natToStr n
  | .negSucc n => "-" ++ natToStr (n + 1)

/-- Left-pad a character list with zeros to the given length. -/
def padZeros (k : Nat) (l : List Char) : List Char :=
  List.replicate (k - l.length) '0' ++ l

/-- Smallest exponent `k ∈ [1, 40]` with `den ∣ 10 ^ k`, if any. -/
def decExponent (den : Nat) : Option Nat :=
  (List.range 40).find? (fun j => den ∣ 10 ^ (j + 1)) |>.map (· + 1)

/-- Python `str` on a float value, restricted to values with a short finite
decimal expansion (the only ones arising here): an integral value renders as
`<int>.0`, a finite decimal as its digits.  Values with no finite decimal
expansion are rendered as exact fractions — such values never arise in the
programs considered. -/
def pyFloatRepr (q : ℚ) : String :=
  if q.den = 1 then intStr q.num ++ ".0"
  else
    match decExponent q.den with
    | some k =>
      let scaled : Nat := q.num.natAbs * ((10 ^ k) / q.den)
      let frac : Nat := scaled % 10 ^ k
      let sign := if q.num < 0 then "-" else ""
      sign ++ natToStr (scaled / 10 ^ k) ++ "." ++
        String.mk (padZeros k (natToStrAux (frac + 1) frac))
    | none => intStr q.num ++ "/" ++ natToStr q.den

/-! ## Python `float(...)` parsing (`rl_optimizer.is_constant`, `parser`)

Models `float(s)` success/value on the decimal forms `[±]digits`,
`[±]digits.digits`, `[±].digits`, `[±]digits.` — the forms producible by the
lexer and by the optimizer's own formatter.  (Python additionally accepts
exponents, `inf`/`nan` and surrounding whitespace; none arise here.) -/

/-- Numeric value of a list of decimal digit characters. -/
def digitsVal (l : List Char) : Nat :=
  l.foldl (fun a c => a * 10 + (c.toNat - 48)) 0

/-- Parse the unsigned part: `digits`, `digits.digits`, `.digits`, `digits.`. -/
def parseUnsigned (cs : List Char) : Option ℚ :=
  let ip := cs.takeWhile Char.isDigit
  let rest := cs.dropWhile Char.isDigit
  match rest with
  | [] => if ip.isEmpty then none else some (digitsVal ip)
  | '.' :: fp =>
    if fp.all Char.isDigit && !(ip.isEmpty && fp.isEmpty) then
      some ((digitsVal ip : ℚ) + (digitsVal fp : ℚ) / (10 ^ fp.length))
    else none
  | _ => none

/-- Model of Python `float(s)`: `none` means `float` raises `ValueError`. -/
def parseNum (s : String) : Option ℚ :=
  match s.toList with
  | '-' :: cs => (parseUnsigned cs).map (fun q => -q)
  | '+' :: cs => parseUnsigned cs
  | cs => parseUnsigned cs

/-! ## Tokens (`lexer.py`)

`TokenType` is a Python `Enum`.  In the original, `RPAREN = "RBRACE"` and
`RBRACE = "RBRACE"` give the two names the *same* enum value, so
`TokenType.RBRACE` is an alias of the member `TokenType.RPAREN`: `)` and `}`
carry the same token type.  The embedding therefore has a single constructor
for both, with `TokenType.RBRACE` defined as that constructor. -/

inductive TokenType where
  | NUMBER | STRING | IDENTIFIER
  | PRINT | SCAN | WHILE | IF | ELSE
  | PLUS | MINUS | MULTIPLY | DIVIDE | ASSIGN | PLUS_ASSIGN | MINUS_ASSIGN
  | EQUAL | NOT_EQUAL | GREATER | LESS | GREATER_EQUAL | LESS_EQUAL
  | AND | OR | NOT
  | LPAREN | RPAREN | LBRACE | SEMICOLON
  | NEWLINE | EOF
  deriving DecidableEq, Repr

/-- `TokenType.RBRACE` is an alias of `TokenType.RPAREN` (both Python enum
names share the value `"RBRACE"`, so Python collapses them into one member). -/
def TokenType.RBRACE : TokenType := TokenType.RPAREN

structure Token where
  type : TokenType
  value : String
  line : Nat
  column : Nat
  deriving DecidableEq, Repr

/-- Lexer failure (Python raises `SyntaxError` with a message naming the
line, and for unknown characters also the column and the character). -/
inductive LexErr where
  | unterminatedString (line : Nat)
  | unknownChar (c : Char) (line col : Nat)
  deriving DecidableEq, Repr

instance : DecidableEq (Except LexErr (List Token)) := fun a b =>
  match a, b with
  | .ok x, .ok y =>
    if h : x = y then .isTrue (by rw [h]) else .isFalse (by simp [h])
  | .ok _, .error _ => .isFalse (by simp)
  | .error _, .ok _ => .isFalse (by simp)
  | .error x, .error y =>
    if h : x = y then .isTrue (by rw [h]) else .isFalse (by simp [h])

/-! ## The lexer (`Lexer.tokenize`) -/

/-- Whitespace skipped by `skip_whitespace` (newline is significant). -/
def isWs (c : Char) : Bool := c = ' ' || c = '\t' || c = '\r'

/-- Characters beginning a one-or-two-character operator. -/
def isOpStart (c : Char) : Bool :=
  c = '+' || c = '-' || c = '=' || c = '!' || c = '>' || c = '<' || c = '&' || c = '|'

/-- The two-character operator table (`Lexer.operators`, two-char entries). -/
def twoCharOp (a b : Char) : Option TokenType :=
  if a = '+' && b = '=' then some .PLUS_ASSIGN
  else if a = '-' && b = '=' then some .MINUS_ASSIGN
  else if a = '=' && b = '=' then some .EQUAL
  else if a = '!' && b = '=' then some .NOT_EQUAL
  else if a = '>' && b = '=' then some .GREATER_EQUAL
  else if a = '<' && b = '=' then some .LESS_EQUAL
  else if a = '&' && b = '&' then some .AND
  else if a = '|' && b = '|' then some .OR
  else none

/-- The one-character operator table (`Lexer.operators`, one-char entries). -/
def oneCharOp (a : Char) : Option TokenType :=
  if a = '+' then some .PLUS
  else if a = '-' then some .MINUS
  else if a = '*' then some .MULTIPLY
  else if a = '/' then some .DIVIDE
  else if a = '=' then some .ASSIGN
  else if a = '>' then some .GREATER
  else if a = '<' then some .LESS
  else if a = '!' then some .NOT
  else none

/-- Keyword table (`Lexer.keywords`). -/
def keywordType (s : String) : TokenType :=
  if s = "print" then .PRINT
  else if s = "scan" then .SCAN
  else if s = "while" then .WHILE
  else if s = "if" then .IF
  else if s = "else" then .ELSE
  else .IDENTIFIER

/-- Characters accepted inside an identifier (`read_identifier`); ASCII
restriction of Python `isalnum`. -/
def isIdentChar (c : Char) : Bool := c.isAlphanum || c = '_'

/-- Characters accepted inside a number (`read_number`). -/
def isNumChar (c : Char) : Bool := c.isDigit || c = '.'

/-- `Lexer.read_string` after the opening quote: consume until an unescaped
closing quote; a backslash skips the following character.  Returns the raw
value (backslashes kept), the rest of the input, and the updated line and
column; `.error line` models the `Unterminated string` failure, carrying the
line counter at the moment of the raise (i.e. after consuming the rest of
the input). -/
def readStringAux : List Char → Nat → Nat → Except Nat (List Char × List Char × Nat × Nat)
  | [], line, _ => .error line
  | ch :: rest, line, col =>
    if ch = '"' then .ok ([], rest, line, col + 1)
    else if ch = '\\' then
      match rest with
      | [] => .error line
      | c2 :: rest2 =>
        let line2 := if c2 = '\n' then line + 1 else line
        let col2 := if c2 = '\n' then 1 else col + 2
        match readStringAux rest2 line2 col2 with
        | .ok (v, r, l, co) => .ok ('\\' :: c2 :: v, r, l, co)
        | .error l => .error l
    else
      let line2 := if ch = '\n' then line + 1 else line
      let col2 := if ch = '\n' then 1 else col + 1
      match readStringAux rest line2 col2 with
      | .ok (v, r, l, co) => .ok (ch :: v, r, l, co)
      | .error l => .error l

/-- Prepend an emitted token to the (exception-propagating) rest of the
token stream. -/
def lexCons (tok : Token) (r : Except LexErr (List Token)) :
    Except LexErr (List Token) :=
  match r with
  | .ok ts => .ok (tok :: ts)
  | .error e => .error e

/-- The main lexer loop (`Lexer.tokenize`), one branch per branch of the
Python `while` loop, producing the remaining tokens.  Structural recursion
on fuel; every recursive call consumes at least one character, so fuel equal
to the input length always suffices. -/
def lexGo : Nat → List Char → Nat → Nat → Except LexErr (List Token)
  | 0, _, line, col => .ok [⟨.EOF, "", line, col⟩]
  | _ + 1, [], line, col => .ok [⟨.EOF, "", line, col⟩]
  | fuel + 1, c :: rest, line, col =>
    if isWs c then
      lexGo fuel rest line (col + 1)
    else if c == '/' && rest.headD ' ' == '/' && !rest.isEmpty then
      -- single-line comment: skip to (but not past) the next newline
      let skipped := rest.takeWhile (fun x => x ≠ '\n')
      lexGo fuel (rest.dropWhile (fun x => x ≠ '\n')) line (col + 1 + skipped.length)
    else if c = '\n' then
      lexCons ⟨.NEWLINE, "\n", line, col⟩ (lexGo fuel rest (line + 1) 1)
    else if c.isDigit then
      let ds := (c :: rest).takeWhile isNumChar
      lexCons ⟨.NUMBER, String.mk ds, line, col⟩
        (lexGo fuel ((c :: rest).dropWhile isNumChar) line (col + ds.length))
    else if c = '"' then
      match readStringAux rest line (col + 1) with
      | .error l => .error (.unterminatedString l)
      | .ok (v, rest2, line2, col2) =>
        lexCons ⟨.STRING, String.mk v, line, col⟩ (lexGo fuel rest2 line2 col2)
    else if c.isAlpha || c = '_' then
      let ds := (c :: rest).takeWhile isIdentChar
      let value := String.mk ds
      lexCons ⟨keywordType value, value, line, col⟩
        (lexGo fuel ((c :: rest).dropWhile isIdentChar) line (col + ds.length))
    else if isOpStart c then
      match rest with
      | b :: rest2 =>
        match twoCharOp c b with
        | some tt =>
          lexCons ⟨tt, String.mk [c, b], line, col⟩ (lexGo fuel rest2 line (col + 2))
        | none =>
          match oneCharOp c with
          | some tt =>
            lexCons ⟨tt, String.mk [c], line, col⟩ (lexGo fuel rest line (col + 1))
          | none => .error (.unknownChar c line col)
      | [] =>
        -- at end of input `two_char` is the single character, which is still
        -- in the operator table, so Python advances twice (column + 2)
        match oneCharOp c with
        | some tt =>
          lexCons ⟨tt, String.mk [c], line, col⟩ (lexGo fuel [] line (col + 2))
        | none => .error (.unknownChar c line col)
    else if c = '(' then
      lexCons ⟨.LPAREN, "(", line, col⟩ (lexGo fuel rest line (col + 1))
    else if c = ')' then
      lexCons ⟨.RPAREN, ")", line, col⟩ (lexGo fuel rest line (col + 1))
    else if c = '{' then
      lexCons ⟨.LBRACE, "\x7b", line, col⟩ (lexGo fuel rest line (col + 1))
    else if c = '}' then
      lexCons ⟨TokenType.RBRACE, "\x7d", line, col⟩ (lexGo fuel rest line (col + 1))
    else if c = ';' then
      lexCons ⟨.SEMICOLON, ";", line, col⟩ (lexGo fuel rest line (col + 1))
    else if c = '*' then
      lexCons ⟨.MULTIPLY, "*", line, col⟩ (lexGo fuel rest line (col + 1))
    else if c = '/' then
      lexCons ⟨.DIVIDE, "/", line, col⟩ (lexGo fuel rest line (col + 1))
    else
      .error (.unknownChar c line col)

/-- `Lexer(source).tokenize()`. -/
def tokenize (s : String) : Except LexErr (List Token) :=
  lexGo s.toList.length s.toList 1 1

/-! ## AST (`ast_nodes.py`)

The closed node set, as a pair of nested inductives.  Number literal values
(`float` in the original) are modelled as `ℚ`. -/

inductive Expr where
  | numberLiteral (value : ℚ)
  | stringLiteral (value : String)
  | identifier (name : String)
  | binaryOperation (left : Expr) (operator : String) (right : Expr)
  | unaryOperation (operator : String) (operand : Expr)
  deriving Repr

inductive Stmt where
  | assignmentStatement (target : String) (operator : String) (value : Expr)
  | printStatement (expression : Expr)
  | scanStatement (target : String)
  | whileStatement (condition : Expr) (body : List Stmt)
  | ifStatement (condition : Expr) (thenBody : List Stmt) (elseBody : Option (List Stmt))
  deriving Repr

structure Program where
  statements : List Stmt
  deriving Repr

/-! ## The parser (`parser.py`)

Recursive-descent over the token list.  The parser state is the token list
plus a position, exactly as in the original.  All recursion is structural on
an explicit fuel argument; `parse` instantiates the fuel large enough for
every terminating run (each consumed token costs a bounded number of steps).
Failure models `ParseError`; the embedded error carries the line only (the
message text is not modelled).  `numberError` models the `ValueError` that
Python's `float()` raises on a malformed number token. -/

inductive ParseErr where
  | parseError (line : Nat)
  | numberError (line : Nat)
  deriving DecidableEq, Repr

structure PState where
  tokens : List Token
  position : Nat
  deriving Repr

/-- `Parser.current_token` (the original indexes `tokens[-1]` past the end;
an empty token list, which `tokenize` never produces, yields a default). -/
def currentToken (p : PState) : Token :=
  if p.position < p.tokens.length then p.tokens.getD p.position ⟨.EOF, "", 0, 0⟩
  else p.tokens.getLastD ⟨.EOF, "", 0, 0⟩

/-- `Parser.advance`: never moves past the final (EOF) token. -/
def advanceP (p : PState) : PState :=
  if p.position < p.tokens.length - 1 then { p with position := p.position + 1 } else p

/-- `Parser.consume`. -/
def consume (tt : TokenType) (p : PState) : Except ParseErr (Token × PState) :=
  if (currentToken p).type = tt then .ok (currentToken p, advanceP p)
  else .error (.parseError (currentToken p).line)

/-- `Parser.skip_newlines` (fuel-structural; `advance` always progresses
before the final token, and the final token of a lexed stream is EOF). -/
def skipNewlines : Nat → PState → PState
  | 0, p => p
  | fuel + 1, p =>
    if (currentToken p).type = .NEWLINE then skipNewlines fuel (advanceP p) else p

mutual

/-- `Parser.parse_primary`. -/
def parsePrimary : Nat → PState → Except ParseErr (Expr × PState)
  | 0, p => .error (.parseError (currentToken p).line)
  | fuel + 1, p =>
    let t := currentToken p
    if t.type = .NUMBER then
      match parseNum t.value with
      | some v => .ok (.numberLiteral v, advanceP p)
      | none => .error (.numberError t.line)
    else if t.type = .STRING then .ok (.stringLiteral t.value, advanceP p)
    else if t.type = .IDENTIFIER then .ok (.identifier t.value, advanceP p)
    else if t.type = .LPAREN then
      match parseExpression fuel (advanceP p) with
      | .ok (e, p2) =>
        match consume .RPAREN p2 with
        | .ok (_, p3) => .ok (e, p3)
        | .error e2 => .error e2
      | .error e2 => .error e2
    else .error (.parseError t.line)

/-- `Parser.parse_unary`. -/
def parseUnary : Nat → PState → Except ParseErr (Expr × PState)
  | 0, p => .error (.parseError (currentToken p).line)
  | fuel + 1, p =>
    let t := currentToken p
    if t.type = .NOT ∨ t.type = .MINUS then
      match parseUnary fuel (advanceP p) with
      | .ok (e, p2) => .ok (.unaryOperation t.value e, p2)
      | .error e2 => .error e2
    else parsePrimary fuel p

/-- The `while` loop inside `Parser.parse_multiplication`. -/
def mulLoop : Nat → Expr → PState → Except ParseErr (Expr × PState)
  | 0, _, p => .error (.parseError (currentToken p).line)
  | fuel + 1, e, p =>
    let t := currentToken p
    if t.type = .MULTIPLY ∨ t.type = .DIVIDE then
      match parseUnary fuel (advanceP p) with
      | .ok (r, p2) => mulLoop fuel (.binaryOperation e t.value r) p2
      | .error e2 => .error e2
    else .ok (e, p)

/-- `Parser.parse_multiplication`. -/
def parseMultiplication : Nat → PState → Except ParseErr (Expr × PState)
  | 0, p => .error (.parseError (currentToken p).line)
  | fuel + 1, p =>
    match parseUnary fuel p with
    | .ok (e, p2) => mulLoop fuel e p2
    | .error e2 => .error e2

/-- The `while` loop inside `Parser.parse_addition`. -/
def addLoop : Nat → Expr → PState → Except ParseErr (Expr × PState)
  | 0, _, p => .error (.parseError (currentToken p).line)
  | fuel + 1, e, p =>
    let t := currentToken p
    if t.type = .PLUS ∨ t.type = .MINUS then
      match parseMultiplication fuel (advanceP p) with
      | .ok (r, p2) => addLoop fuel (.binaryOperation e t.value r) p2
      | .error e2 => .error e2
    else .ok (e, p)

/-- `Parser.parse_addition`. -/
def parseAddition : Nat → PState → Except ParseErr (Expr × PState)
  | 0, p => .error (.parseError (currentToken p).line)
  | fuel + 1, p =>
    match parseMultiplication fuel p with
    | .ok (e, p2) => addLoop fuel e p2
    | .error e2 => .error e2

/-- The `while` loop inside `Parser.parse_comparison`. -/
def cmpLoop : Nat → Expr → PState → Except ParseErr (Expr × PState)
  | 0, _, p => .error (.parseError (currentToken p).line)
  | fuel + 1, e, p =>
    let t := currentToken p
    if t.type = .GREATER ∨ t.type = .LESS ∨ t.type = .GREATER_EQUAL ∨ t.type = .LESS_EQUAL then
      match parseAddition fuel (advanceP p) with
      | .ok (r, p2) => cmpLoop fuel (.binaryOperation e t.value r) p2
      | .error e2 => .error e2
    else .ok (e, p)

/-- `Parser.parse_comparison`. -/
def parseComparison : Nat → PState → Except ParseErr (Expr × PState)
  | 0, p => .error (.parseError (currentToken p).line)
  | fuel + 1, p =>
    match parseAddition fuel p with
    | .ok (e, p2) => cmpLoop fuel e p2
    | .error e2 => .error e2

/-- The `while` loop inside `Parser.parse_equality`. -/
def eqLoop : Nat → Expr → PState → Except ParseErr (Expr × PState)
  | 0, _, p => .error (.parseError (currentToken p).line)
  | fuel + 1, e, p =>
    let t := currentToken p
    if t.type = .EQUAL ∨ t.type = .NOT_EQUAL then
      match parseComparison fuel (advanceP p) with
      | .ok (r, p2) => eqLoop fuel (.binaryOperation e t.value r) p2
      | .error e2 => .error e2
    else .ok (e, p)

/-- `Parser.parse_equality`. -/
def parseEquality : Nat → PState → Except ParseErr (Expr × PState)
  | 0, p => .error (.parseError (currentToken p).line)
  | fuel + 1, p =>
    match parseComparison fuel p with
    | .ok (e, p2) => eqLoop fuel e p2
    | .error e2 => .error e2

/-- The `while` loop inside `Parser.parse_logical_and`. -/
def andLoop : Nat → Expr → PState → Except ParseErr (Expr × PState)
  | 0, _, p => .error (.parseError (currentToken p).line)
  | fuel + 1, e, p =>
    if (currentToken p).type = .AND then
      match parseEquality fuel (advanceP p) with
      | .ok (r, p2) => andLoop fuel (.binaryOperation e (currentToken p).value r) p2
      | .error e2 => .error e2
    else .ok (e, p)

/-- `Parser.parse_logical_and`. -/
def parseLogicalAnd : Nat → PState → Except ParseErr (Expr × PState)
  | 0, p => .error (.parseError (currentToken p).line)
  | fuel + 1, p =>
    match parseEquality fuel p with
    | .ok (e, p2) => andLoop fuel e p2
    | .error e2 => .error e2

/-- The `while` loop inside `Parser.parse_logical_or`. -/
def orLoop : Nat → Expr → PState → Except ParseErr (Expr × PState)
  | 0, _, p => .error (.parseError (currentToken p).line)
  | fuel + 1, e, p =>
    if (currentToken p).type = .OR then
      match parseLogicalAnd fuel (advanceP p) with
      | .ok (r, p2) => orLoop fuel (.binaryOperation e (currentToken p).value r) p2
      | .error e2 => .error e2
    else .ok (e, p)

/-- `Parser.parse_logical_or`. -/
def parseLogicalOr : Nat → PState → Except ParseErr (Expr × PState)
  | 0, p => .error (.parseError (currentToken p).line)
  | fuel + 1, p =>
    match parseLogicalAnd fuel p with
    | .ok (e, p2) => orLoop fuel e p2
    | .error e2 => .error e2

/-- `Parser.parse_expression`. -/
def parseExpression : Nat → PState → Except ParseErr (Expr × PState)
  | 0, p => .error (.parseError (currentToken p).line)
  | fuel + 1, p => parseLogicalOr fuel p

end

mutual

/-- `Parser.parse_statement`. -/
def parseStatement : Nat → PState → Except ParseErr (Option Stmt × PState)
  | 0, p => .error (.parseError (currentToken p).line)
  | fuel + 1, p =>
    let p := skipNewlines (p.tokens.length + 1) p
    let t := currentToken p
    if t.type = .PRINT then parsePrintStatement fuel p
    else if t.type = .SCAN then parseScanStatement fuel p
    else if t.type = .WHILE then parseWhileStatement fuel p
    else if t.type = .IF then parseIfStatement fuel p
    else if t.type = .IDENTIFIER then parseAssignmentStatement fuel p
    else if t.type = .EOF ∨ t.type = .NEWLINE then .ok (none, p)
    else .error (.parseError t.line)

/-- `Parser.parse_print_statement`. -/
def parsePrintStatement : Nat → PState → Except ParseErr (Option Stmt × PState)
  | 0, p => .error (.parseError (currentToken p).line)
  | fuel + 1, p =>
    match consume .PRINT p with
    | .error e => .error e
    | .ok (_, p1) =>
      match consume .LPAREN p1 with
      | .error e => .error e
      | .ok (_, p2) =>
        match parseExpression fuel p2 with
        | .error e => .error e
        | .ok (expr, p3) =>
          match consume .RPAREN p3 with
          | .error e => .error e
          | .ok (_, p4) =>
            match consume .SEMICOLON p4 with
            | .error e => .error e
            | .ok (_, p5) => .ok (some (.printStatement expr), p5)

/-- `Parser.parse_scan_statement`. -/
def parseScanStatement : Nat → PState → Except ParseErr (Option Stmt × PState)
  | 0, p => .error (.parseError (currentToken p).line)
  | _ + 1, p =>
    match consume .SCAN p with
    | .error e => .error e
    | .ok (_, p1) =>
      match consume .LPAREN p1 with
      | .error e => .error e
      | .ok (_, p2) =>
        match consume .IDENTIFIER p2 with
        | .error e => .error e
        | .ok (tgt, p3) =>
          match consume .RPAREN p3 with
          | .error e => .error e
          | .ok (_, p4) =>
            match consume .SEMICOLON p4 with
            | .error e => .error e
            | .ok (_, p5) => .ok (some (.scanStatement tgt.value), p5)

/-- `Parser.parse_assignment_statement`. -/
def parseAssignmentStatement : Nat → PState → Except ParseErr (Option Stmt × PState)
  | 0, p => .error (.parseError (currentToken p).line)
  | fuel + 1, p =>
    match consume .IDENTIFIER p with
    | .error e => .error e
    | .ok (tgt, p1) =>
      let t := currentToken p1
      if t.type = .ASSIGN ∨ t.type = .PLUS_ASSIGN ∨ t.type = .MINUS_ASSIGN then
        match parseExpression fuel (advanceP p1) with
        | .error e => .error e
        | .ok (v, p2) =>
          match consume .SEMICOLON p2 with
          | .error e => .error e
          | .ok (_, p3) => .ok (some (.assignmentStatement tgt.value t.value v), p3)
      else .error (.parseError t.line)

/-- The body-collecting loop shared (verbatim in the original) by
`parse_while_statement` and both branches of `parse_if_statement`:
`while not match(RBRACE) and not match(EOF): parse_statement; skip_newlines`. -/
def parseBlockLoop : Nat → List Stmt → PState → Except ParseErr (List Stmt × PState)
  | 0, _, p => .error (.parseError (currentToken p).line)
  | fuel + 1, acc, p =>
    if (currentToken p).type = TokenType.RBRACE ∨ (currentToken p).type = .EOF then
      .ok (acc, p)
    else
      match parseStatement fuel p with
      | .error e => .error e
      | .ok (stmt?, p1) =>
        let p2 := skipNewlines (p1.tokens.length + 1) p1
        match stmt? with
        | some s => parseBlockLoop fuel (acc ++ [s]) p2
        | none => parseBlockLoop fuel acc p2

/-- `Parser.parse_while_statement`. -/
def parseWhileStatement : Nat → PState → Except ParseErr (Option Stmt × PState)
  | 0, p => .error (.parseError (currentToken p).line)
  | fuel + 1, p =>
    match consume .WHILE p with
    | .error e => .error e
    | .ok (_, p1) =>
      match consume .LPAREN p1 with
      | .error e => .error e
      | .ok (_, p2) =>
        match parseExpression fuel p2 with
        | .error e => .error e
        | .ok (cond, p3) =>
          match consume .RPAREN p3 with
          | .error e => .error e
          | .ok (_, p4) =>
            match consume .LBRACE p4 with
            | .error e => .error e
            | .ok (_, p5) =>
              let p6 := skipNewlines (p5.tokens.length + 1) p5
              match parseBlockLoop fuel [] p6 with
              | .error e => .error e
              | .ok (body, p7) =>
                match consume TokenType.RBRACE p7 with
                | .error e => .error e
                | .ok (_, p8) => .ok (some (.whileStatement cond body), p8)

/-- `Parser.parse_if_statement`. -/
def parseIfStatement : Nat → PState → Except ParseErr (Option Stmt × PState)
  | 0, p => .error (.parseError (currentToken p).line)
  | fuel + 1, p =>
    match consume .IF p with
    | .error e => .error e
    | .ok (_, p1) =>
      match consume .LPAREN p1 with
      | .error e => .error e
      | .ok (_, p2) =>
        match parseExpression fuel p2 with
        | .error e => .error e
        | .ok (cond, p3) =>
          match consume .RPAREN p3 with
          | .error e => .error e
          | .ok (_, p4) =>
            match consume .LBRACE p4 with
            | .error e => .error e
            | .ok (_, p5) =>
              let p6 := skipNewlines (p5.tokens.length + 1) p5
              match parseBlockLoop fuel [] p6 with
              | .error e => .error e
              | .ok (thenBody, p7) =>
                match consume TokenType.RBRACE p7 with
                | .error e => .error e
                | .ok (_, p8) =>
                  if (currentToken p8).type = .ELSE then
                    match consume .LBRACE (advanceP p8) with
                    | .error e => .error e
                    | .ok (_, p9) =>
                      let p10 := skipNewlines (p9.tokens.length + 1) p9
                      match parseBlockLoop fuel [] p10 with
                      | .error e => .error e
                      | .ok (elseBody, p11) =>
                        match consume TokenType.RBRACE p11 with
                        | .error e => .error e
                        | .ok (_, p12) =>
                          .ok (some (.ifStatement cond thenBody (some elseBody)), p12)
                  else .ok (some (.ifStatement cond thenBody none), p8)

/-- The statement loop of `Parser.parse`. -/
def parseLoop : Nat → List Stmt → PState → Except ParseErr (List Stmt × PState)
  | 0, _, p => .error (.parseError (currentToken p).line)
  | fuel + 1, acc, p =>
    if (currentToken p).type = .EOF then .ok (acc, p)
    else
      match parseStatement fuel p with
      | .error e => .error e
      | .ok (stmt?, p1) =>
        let p2 := skipNewlines (p1.tokens.length + 1) p1
        match stmt? with
        | some s => parseLoop fuel (acc ++ [s]) p2
        | none => parseLoop fuel acc p2

end

/-- `Parser(tokens).parse()`.  The fuel bound is generous: a terminating
parse consumes at least one token per constant number of steps. -/
def parse (tokens : List Token) : Except ParseErr Program :=
  let p0 := skipNewlines (tokens.length + 1) ⟨tokens, 0⟩
  match parseLoop (8 * tokens.length + 64) [] p0 with
  | .error e => .error e
  | .ok (stmts, _) => .ok ⟨stmts⟩

/-! ## Semantic analyzer (`semantic_analyzer.py`)

The symbol table's `define` is a dict upsert and `lookup` a key-membership
test; the table is modelled as the list of defined names (membership is all
that is ever read).  As in the original, analysis threads one state through
a pre-order walk, appending diagnostics. -/

structure AnaState where
  symbols : List String
  errors : List String
  deriving Repr

/-- The single-quote character, used in diagnostic texts. -/
def sglQuote : String := String.mk [Char.ofNat 39]

/-- The diagnostic emitted by `visit_identifier` for an undefined name. -/
def undefinedVariableMsg (n : String) : String :=
  "Undefined variable " ++ sglQuote ++ n ++ sglQuote

/-- Whether an expression is the literal number `0`
(`isinstance(node.right, NumberLiteral) and node.right.value == 0`). -/
def isZeroLiteral : Expr → Bool
  | .numberLiteral v => v == 0
  | _ => false

/-- Expression traversal of `SemanticAnalyzer` (`visit_identifier`,
`visit_binary_operation`, `visit_unary_operation`, literals). -/
def visitExprA : Expr → AnaState → AnaState
  | .numberLiteral _, st => st
  | .stringLiteral _, st => st
  | .identifier n, st =>
    if n ∈ st.symbols then st
    else { st with errors := st.errors ++ [undefinedVariableMsg n] }
  | .binaryOperation l op r, st =>
    let st1 := visitExprA l st
    let st2 := visitExprA r st1
    if (op == "/" || op == "%") && isZeroLiteral r then
      { st2 with errors := st2.errors ++ ["Division by zero"] }
    else st2
  | .unaryOperation _ e, st => visitExprA e st

mutual

/-- Statement traversal of `SemanticAnalyzer` (`visit_assignment_statement`,
`visit_print_statement`, `visit_scan_statement`, `visit_while_statement`,
`visit_if_statement`).  An assignment visits its value *before* defining its
target. -/
def visitStmtA : Stmt → AnaState → AnaState
  | .assignmentStatement t _ v, st =>
    let st1 := visitExprA v st
    { st1 with symbols := t :: st1.symbols }
  | .printStatement e, st => visitExprA e st
  | .scanStatement t, st => { st with symbols := t :: st.symbols }
  | .whileStatement c b, st => visitStmtsA b (visitExprA c st)
  | .ifStatement c tb eb, st =>
    let st1 := visitExprA c st
    let st2 := visitStmtsA tb st1
    match eb with
    | some l => visitStmtsA l st2
    | none => st2

/-- Statement-list traversal (`visit_program` and the body loops). -/
def visitStmtsA : List Stmt → AnaState → AnaState
  | [], st => st
  | s :: r, st => visitStmtsA r (visitStmtA s st)

end

/-- `SemanticAnalyzer().analyze(ast)` on a fresh analyzer instance. -/
def analyze (p : Program) : List String :=
  (visitStmtsA p.statements ⟨[], []⟩).errors

/-! ## Three-address code and its generator (`intermediate_code.py`) -/

structure ThreeAddressCode where
  operation : String
  arg1 : Option String := none
  arg2 : Option String := none
  result : Option String := none
  deriving DecidableEq, Repr

instance : Inhabited ThreeAddressCode := ⟨⟨"", none, none, none⟩⟩

/-- `IntermediateCodeGenerator.new_temp`: the name of temporary `n`. -/
def tempName (n : Nat) : String := "t" ++ natToStr n

/-- `IntermediateCodeGenerator.new_label`: the name of label `n`. -/
def labelName (n : Nat) : String := "L" ++ natToStr n

/-- `visit_string_literal` wraps the value in double quotes. -/
def quoteStr (s : String) : String := "\"" ++ s ++ "\""

/-- Generator state: emitted code plus the two counters. -/
structure GenSt where
  code : List ThreeAddressCode
  temp_counter : Nat
  label_counter : Nat
  deriving Repr

/-- Expression lowering (`visit_number_literal`, `visit_string_literal`,
`visit_identifier`, `visit_binary_operation`, `visit_unary_operation`):
returns the operand text and the updated state. -/
def visitExprG : Expr → GenSt → String × GenSt
  | .numberLiteral v, st => (pyFloatRepr v, st)
  | .stringLiteral s, st => (quoteStr s, st)
  | .identifier n, st => (n, st)
  | .binaryOperation l op r, st =>
    let (a, st1) := visitExprG l st
    let (b, st2) := visitExprG r st1
    let t := tempName (st2.temp_counter + 1)
    (t, { st2 with temp_counter := st2.temp_counter + 1,
                   code := st2.code ++ [⟨op, some a, some b, some t⟩] })
  | .unaryOperation op e, st =>
    let (a, st1) := visitExprG e st
    let t := tempName (st1.temp_counter + 1)
    (t, { st1 with temp_counter := st1.temp_counter + 1,
                   code := st1.code ++ [⟨op, some a, none, some t⟩] })

mutual

/-- Statement lowering (`visit_assignment_statement`, `visit_print_statement`,
`visit_scan_statement`, `visit_while_statement`, `visit_if_statement`).
An assignment whose operator is none of `=`, `+=`, `-=` emits nothing, as in
the original (its `if`/`elif` chain has no final `else`). -/
def visitStmtG : Stmt → GenSt → GenSt
  | .assignmentStatement tgt op v, st =>
    let (value, st1) := visitExprG v st
    if op = "=" then
      { st1 with code := st1.code ++ [⟨"ASSIGN", some value, none, some tgt⟩] }
    else if op = "+=" then
      let t := tempName (st1.temp_counter + 1)
      { st1 with temp_counter := st1.temp_counter + 1,
                 code := st1.code ++ [⟨"+", some tgt, some value, some t⟩,
                                      ⟨"ASSIGN", some t, none, some tgt⟩] }
    else if op = "-=" then
      let t := tempName (st1.temp_counter + 1)
      { st1 with temp_counter := st1.temp_counter + 1,
                 code := st1.code ++ [⟨"-", some tgt, some value, some t⟩,
                                      ⟨"ASSIGN", some t, none, some tgt⟩] }
    else st1
  | .printStatement e, st =>
    let (a, st1) := visitExprG e st
    { st1 with code := st1.code ++ [⟨"PRINT", some a, none, none⟩] }
  | .scanStatement t, st =>
    { st with code := st.code ++ [⟨"SCAN", none, none, some t⟩] }
  | .whileStatement c b, st =>
    let startLabel := labelName (st.label_counter + 1)
    let endLabel := labelName (st.label_counter + 2)
    let st0 := { st with label_counter := st.label_counter + 2,
                         code := st.code ++ [⟨"LABEL", some startLabel, none, none⟩] }
    let (cond, st1) := visitExprG c st0
    let st2 := { st1 with code := st1.code ++ [⟨"IF_FALSE", some cond, some endLabel, none⟩] }
    let st3 := visitStmtsG b st2
    { st3 with code := st3.code ++ [⟨"GOTO", some startLabel, none, none⟩,
                                    ⟨"LABEL", some endLabel, none, none⟩] }
  | .ifStatement c tb eb, st =>
    let elseLabel := labelName (st.label_counter + 1)
    let endLabel := labelName (st.label_counter + 2)
    let st0 := { st with label_counter := st.label_counter + 2 }
    let (cond, st1) := visitExprG c st0
    let st2 := { st1 with code := st1.code ++ [⟨"IF_FALSE", some cond, some elseLabel, none⟩] }
    let st3 := visitStmtsG tb st2
    match eb with
    | some el =>
      let st4 := { st3 with code := st3.code ++ [⟨"GOTO", some endLabel, none, none⟩,
                                                 ⟨"LABEL", some elseLabel, none, none⟩] }
      let st5 := visitStmtsG el st4
      { st5 with code := st5.code ++ [⟨"LABEL", some endLabel, none, none⟩] }
    | none =>
      { st3 with code := st3.code ++ [⟨"LABEL", some elseLabel, none, none⟩] }

/-- Statement-list lowering (`visit_program` and the body loops). -/
def visitStmtsG : List Stmt → GenSt → GenSt
  | [], st => st
  | s :: r, st => visitStmtsG r (visitStmtG s st)

end

/-- `IntermediateCodeGenerator().generate(ast)`: counters reset, then the
program is visited. -/
def generate (p : Program) : List ThreeAddressCode :=
  (visitStmtsG p.statements ⟨[], 0, 0⟩).code

/-! ## The optimizer (`rl_optimizer.py`)

`RLOptimizer` instance state.  The driver `optimize` is deterministic; the
Q-learning machinery (`update_q_value`, `choose_action`, ...) is never
invoked by it, so only the fields it reads or writes are modelled.  The
`variable_usage` / `variable_defs` dictionaries of sets are modelled as
functions from names to the (sorted) list of positions; `analyze_code`
rewrites both wholesale from the current code, and the driver re-runs it
after every mutation, so the stored maps always agree with the
recomputation used in the primitives below. -/

structure RLOptimizerState where
  q_table : List (String × List (String × ℚ))
  variable_usage : String → List Nat
  variable_defs : String → List Nat

/-- Python truthiness of an optional string field. -/
def truthy : Option String → Bool
  | none => false
  | some s => s != ""

/-- `RLOptimizer.is_constant`: numeric (Python `float` parses it) or a
double-quoted string (`value.startswith('"') and value.endswith('"')`,
expressed on the character list; the empty string satisfies neither). -/
def is_constant (value : String) : Bool :=
  (parseNum value).isSome ||
    (value.toList.headD ' ' == '"' && value.toList.getLastD ' ' == '"')

/-- `is_constant` applied to an optional operand (`None` is not a string,
hence not a constant). -/
def is_constantO : Option String → Bool
  | none => false
  | some s => is_constant s

/-- Whether instruction `ins` reads `v`: `analyze_code` records a use of an
operand that is a truthy, non-constant string. -/
def usesVar (ins : ThreeAddressCode) (v : String) : Bool :=
  (ins.arg1 == some v || ins.arg2 == some v) && v != "" && !is_constant v

/-- The use-position set `variable_usage[v]` that `analyze_code` computes
for the given code. -/
def usedPositions (code : List ThreeAddressCode) (v : String) : List Nat :=
  (List.range code.length).filter (fun i => usesVar (code.getD i default) v)

/-- The definition-position set `variable_defs[v]` that `analyze_code`
computes for the given code. -/
def defPositions (code : List ThreeAddressCode) (v : String) : List Nat :=
  (List.range code.length).filter (fun i =>
    let ins := code.getD i default
    ins.result == some v && truthy ins.result &&
      !(["LABEL", "GOTO", "IF_FALSE", "PRINT"].contains ins.operation))

/-- `RLOptimizer.analyze_code`: recompute `variable_usage`/`variable_defs`. -/
def analyze_code (code : List ThreeAddressCode) (st : RLOptimizerState) : RLOptimizerState :=
  { st with variable_usage := fun v => usedPositions code v,
            variable_defs := fun v => defPositions code v }

/-- `RLOptimizer.is_variable_used_later` (against usage sets freshly
computed from `code`, as the driver maintains). -/
def is_variable_used_later (code : List ThreeAddressCode) (position : Nat) (v : String) : Bool :=
  (usedPositions code v).any (fun usage_pos => position < usage_pos)

/-- The four arithmetic operations eligible for folding. -/
def isArithOp (op : String) : Bool :=
  ["+", "-", "*", "/"].contains op

/-- `RLOptimizer.apply_constant_folding`: fold `a op b` when both operand
texts are constants; division by zero and unparseable (quoted-string)
operands leave the code unchanged; otherwise the instruction is replaced in
place by `ASSIGN` of the computed value, rendered without a fractional part
when integral (`str(int(result))`) and as the float text otherwise. -/
def apply_constant_folding (code : List ThreeAddressCode) (position : Nat) :
    List ThreeAddressCode :=
  if position ≥ code.length then code
  else
    let instr := code.getD position default
    if isArithOp instr.operation && is_constantO instr.arg1 && is_constantO instr.arg2 then
      match parseNum (instr.arg1.getD ""), parseNum (instr.arg2.getD "") with
      | some val1, some val2 =>
        if instr.operation == "/" && val2 == 0 then code
        else
          let result : ℚ :=
            if instr.operation == "+" then val1 + val2
            else if instr.operation == "-" then val1 - val2
            else if instr.operation == "*" then val1 * val2
            else val1 / val2
          let result_str := if result.den = 1 then intStr result.num else pyFloatRepr result
          code.set position ⟨"ASSIGN", some result_str, none, instr.result⟩
      | _, _ => code
    else code

/-- The effectful / control-bearing opcodes never removed by dead-code
elimination. -/
def isEffectfulOp (op : String) : Bool :=
  ["PRINT", "SCAN", "LABEL", "GOTO", "IF_FALSE"].contains op

/-- `RLOptimizer.apply_dead_code_elimination`. -/
def apply_dead_code_elimination (code : List ThreeAddressCode) (position : Nat) :
    List ThreeAddressCode :=
  if position ≥ code.length then code
  else
    let instr := code.getD position default
    if isEffectfulOp instr.operation then code
    else if truthy instr.result &&
        is_variable_used_later code position (instr.result.getD "") then code
    else code.eraseIdx position

/-- Python `list.insert(i, x)`: positions past the end append. -/
def pyInsert (i : Nat) (x : ThreeAddressCode) (l : List ThreeAddressCode) :
    List ThreeAddressCode :=
  l.take i ++ x :: l.drop i

/-! ### Loop discovery (`find_loops`) -/

/-- A loop record; `stop` is the `end` key of the original dict.  The
`condition` field is the position of the exit `IF_FALSE`. -/
structure LoopRec where
  start : Nat
  stop : Nat
  condition : Nat
  label : Option String
  modified_vars : List String
  parent : Option Nat := none
  children : List Nat := []
  deriving Repr

instance : Inhabited LoopRec := ⟨⟨0, 0, 0, none, [], none, []⟩⟩

/-- The `labels` dictionary of `find_loops`: label text to index of *last*
`LABEL` instruction carrying it (dict assignment overwrites). -/
def labelIndex (code : List ThreeAddressCode) (a : Option String) : Option Nat :=
  ((List.range code.length).filter (fun i =>
    (code.getD i default).operation == "LABEL" && (code.getD i default).arg1 == a)).getLast?

/-- First `IF_FALSE` inside `[target, i)`, the candidate exit test. -/
def findCondition (code : List ThreeAddressCode) (target i : Nat) : Option Nat :=
  ((List.range code.length).filter (fun j => target ≤ j ∧ j < i)).find?
    (fun j => (code.getD j default).operation == "IF_FALSE")

/-- Names defined strictly within `[start, stop]` (excluding
`LABEL`/`GOTO`/`IF_FALSE`), the loop's modified-variable set. -/
def modifiedVars (code : List ThreeAddressCode) (start stop : Nat) : List String :=
  ((List.range code.length).filter (fun i => start ≤ i ∧ i ≤ stop)).filterMap
    (fun i =>
      let ins := code.getD i default
      if truthy ins.result && !(["LABEL", "GOTO", "IF_FALSE"].contains ins.operation) then
        ins.result
      else none)

/-- Stable insertion into a list sorted by `start` (inserting after equal
keys, as Python's stable `list.sort`). -/
def insertByStart (x : LoopRec) : List LoopRec → List LoopRec
  | [] => [x]
  | h :: t => if h.start ≤ x.start then h :: insertByStart x t else x :: h :: t

/-- Stable sort by `start`. -/
def sortByStart (ls : List LoopRec) : List LoopRec :=
  ls.foldl (fun acc x => insertByStart x acc) []

/-- The parent/children marking loop of `find_loops`.  For each `i` in
order: reset record `i`'s `parent`/`children`, then for every `j ≠ i`
strictly contained in `i`, set record `j`'s parent to `i` and append `j` to
record `i`'s children.  (Because the list is sorted by `start`, a container
always precedes its contents, so each such parent assignment is erased again
when the inner record's own turn resets it — the embedded semantics
reproduces this faithfully.) -/
def markParents (ls : List LoopRec) : List LoopRec :=
  (List.range ls.length).foldl (fun cur i =>
    let cur := cur.set i { cur.getD i default with parent := none, children := [] }
    (List.range cur.length).foldl (fun cur2 j =>
      if i ≠ j ∧ (cur2.getD i default).start < (cur2.getD j default).start ∧
          (cur2.getD i default).stop > (cur2.getD j default).stop then
        let cur2 := cur2.set j { cur2.getD j default with parent := some i }
        cur2.set i { cur2.getD i default with
                      children := (cur2.getD i default).children ++ [j] }
      else cur2) cur) ls

/-- `RLOptimizer.find_loops`: backward `GOTO`s with an `IF_FALSE` in their
span, sorted by start, with nesting marks and modified-variable sets. -/
def find_loops (code : List ThreeAddressCode) : List LoopRec :=
  let raw := (List.range code.length).filterMap (fun i =>
    let ins := code.getD i default
    if ins.operation == "GOTO" then
      match labelIndex code ins.arg1 with
      | some target =>
        if target < i then
          match findCondition code target i with
          | some cp => some (⟨target, i, cp, ins.arg1, modifiedVars code target i, none, []⟩ : LoopRec)
          | none => none
        else none
      | none => none
    else none)
  markParents (sortByStart raw)

/-- One entry of `find_constant_assignments`. -/
structure ConstAssign where
  position : Nat
  loop_idx : Nat
  result : Option String
  deriving Repr

/-- The loop-control test inside `find_constant_assignments`: some
`IF_FALSE` in `(i, stop]` whose `arg1` contains the assignment's result as a
substring (`instr.result in code[j].arg1`). -/
def isLoopControl (code : List ThreeAddressCode) (i stop : Nat) (result : Option String) : Bool :=
  ((List.range code.length).filter (fun j => i < j ∧ j ≤ stop)).any (fun j =>
    (code.getD j default).operation == "IF_FALSE" &&
      decide ((result.getD "").toList <:+: ((code.getD j default).arg1.getD "").toList))

/-- The constant-operation follow-up search inside
`find_constant_assignments`: the first `ASSIGN` in `(i, stop)` whose `arg1`
is the folded temporary. -/
def findFollowUpAssign (code : List ThreeAddressCode) (i stop : Nat) (result : Option String) :
    Option Nat :=
  ((List.range code.length).filter (fun j => i < j ∧ j < stop)).find? (fun j =>
    (code.getD j default).operation == "ASSIGN" && (code.getD j default).arg1 == result)

/-- `RLOptimizer.find_constant_assignments`. -/
def find_constant_assignments (code : List ThreeAddressCode) (loops : List LoopRec) :
    List ConstAssign :=
  (List.range loops.length).flatMap (fun loop_idx =>
    let loop := loops.getD loop_idx default
    ((List.range code.length).filter (fun i => loop.start + 1 ≤ i ∧ i < loop.stop)).filterMap
      (fun i =>
        let instr := code.getD i default
        if instr.operation == "ASSIGN" && is_constantO instr.arg1 then
          if isLoopControl code i loop.stop instr.result then none
          else some ⟨i, loop_idx, instr.result⟩
        else if isArithOp instr.operation && is_constantO instr.arg1 &&
            is_constantO instr.arg2 then
          match findFollowUpAssign code i loop.stop instr.result with
          | some j => some ⟨j, loop_idx, (code.getD j default).result⟩
          | none => none
        else none))

/-- The parent-chain walk of `apply_loop_invariant_motion`
(`while loops[idx].parent is not None`).  The chain in any `find_loops`
output is acyclic (a parent strictly contains its child), so fuel
`loops.length + 1` never runs out; on a hypothetical cyclic input the
original would not terminate. -/
def walkToRoot (loops : List LoopRec) : Nat → Nat → Nat
  | 0, idx => idx
  | fuel + 1, idx =>
    match (loops.getD idx default).parent with
    | some p => walkToRoot loops fuel p
    | none => idx

/-- `RLOptimizer.apply_loop_invariant_motion`: unconditionally relocate the
instruction to just before the outermost enclosing loop's start. -/
def apply_loop_invariant_motion (code : List ThreeAddressCode) (position : Nat)
    (loop_idx : Nat) (loops : List LoopRec) : List ThreeAddressCode :=
  if position ≥ code.length ∨ loop_idx ≥ loops.length then code
  else
    let instr := code.getD position default
    let outermost := loops.getD (walkToRoot loops (loops.length + 1) loop_idx) default
    pyInsert outermost.start instr (code.eraseIdx position)

/-! ### Control-flow repair (`fix_loop_control_flow`)

The original recurses on itself after every fix with no bound.  The
embedding runs one "scan for the first applicable fix" step (`fixStep`) and
recurses on fuel; `fixStep code = some next` means the original would
recurse on `next` (possibly an *unchanged* `next = code`, which is the
source of non-termination), and `none` means both scans fell through and
the original returns. -/

/-- Whether position `i` holds an `IF_FALSE` whose `arg1` has no earlier
defining instruction (`new_code[j].result == var_name` for some `j < i`). -/
def ifFalseUndefined (code : List ThreeAddressCode) (i : Nat) : Bool :=
  (code.getD i default).operation == "IF_FALSE" &&
    !((List.range i).any (fun j => (code.getD j default).result == (code.getD i default).arg1))

/-- First `GOTO` strictly after `i` (the `loop_end` scan). -/
def firstGotoAfter (code : List ThreeAddressCode) (i : Nat) : Option Nat :=
  (List.range code.length).find? (fun j =>
    i < j && (code.getD j default).operation == "GOTO")

/-- The `loop_var` scan: from `loop_end` down to `i + 1`, the first
instruction with operation `+` and a truthy result; yields its `arg1`. -/
def findLoopVar (code : List ThreeAddressCode) (i loopEnd : Nat) : Option (Option String) :=
  (((List.range (loopEnd - i)).map (fun k => loopEnd - k)).find? (fun j =>
    (code.getD j default).operation == "+" && truthy (code.getD j default).result)).map
    (fun j => (code.getD j default).arg1)

/-- Whether the first `for` loop of `fix_loop_control_flow` fires at `i`:
undefined `IF_FALSE` condition, a `GOTO` after it, and a truthy `loop_var`. -/
def fixLoop1Fires (code : List ThreeAddressCode) (i : Nat) : Bool :=
  ifFalseUndefined code i &&
    match firstGotoAfter code i with
    | none => false
    | some le =>
      match findLoopVar code i le with
      | none => false
      | some a => truthy a

/-- Whether the second `for` loop of `fix_loop_control_flow` fires at `i`:
a `+` with a truthy `t…` result incrementing `i`/`j` by `1.0`. -/
def fixLoop2Fires (code : List ThreeAddressCode) (i : Nat) : Bool :=
  let instr := code.getD i default
  instr.operation == "+" && truthy instr.result &&
    (instr.result.getD "").toList.headD ' ' == 't' &&
    (instr.arg1 == some "i" || instr.arg1 == some "j") && instr.arg2 == some "1.0"

/-- One scan of `fix_loop_control_flow`: the first applicable fix, returning
the list the original recurses on (`none`: no fix fires, the function
returns).  In the first loop, when the loop variable contains neither `i`
nor `j` no instruction is inserted but the original still recurses — on an
unchanged list. -/
def fixStep (code : List ThreeAddressCode) : Option (List ThreeAddressCode) :=
  match (List.range code.length).find? (fun i => fixLoop1Fires code i) with
  | some i =>
    let var_name := (code.getD i default).arg1
    let le := (firstGotoAfter code i).getD 0
    let lv := ((findLoopVar code i le).getD none).getD ""
    if lv.toList.contains 'j' || lv.toList.contains 'i' then
      some (pyInsert i ⟨"<", some lv, some "2.0", var_name⟩ code)
    else some code
  | none =>
    match (List.range code.length).find? (fun i => fixLoop2Fires code i) with
    | some i =>
      let instr := code.getD i default
      let replaced := code.set i ⟨"ASSIGN", instr.result, none, instr.arg1⟩
      some (pyInsert (i + 1) ⟨"=", instr.arg1, none, instr.arg1⟩ replaced)
    | none => none

/-- `RLOptimizer.fix_loop_control_flow`, fuelled: `none` means the fuel ran
out, i.e. the original is still recursing. -/
def fix_loop_control_flow : Nat → List ThreeAddressCode → Option (List ThreeAddressCode)
  | 0, _ => none
  | fuel + 1, code =>
    match fixStep code with
    | some next => fix_loop_control_flow fuel next
    | none => some code

/-- Termination of `fix_loop_control_flow` on an input: some fuel suffices. -/
def FixTerminates (code : List ThreeAddressCode) : Prop :=
  ∃ fuel, (fix_loop_control_flow fuel code).isSome

/-! ### The deterministic driver (`optimize`) -/

/-- The `len(new) != len(old) or any(new[i] != old[i] ...)` change test. -/
def listChanged (a b : List ThreeAddressCode) : Bool :=
  a.length != b.length ||
    (List.range (min a.length b.length)).any (fun i => a.getD i default != b.getD i default)

/-- One iteration of driver pass 1, code component: the driver's
foldability pre-check followed by `apply_constant_folding`. -/
def constantFoldingStep (c : List ThreeAddressCode) (position : Nat) :
    List ThreeAddressCode :=
  let instr := c.getD position default
  if isArithOp instr.operation && is_constantO instr.arg1 && is_constantO instr.arg2 then
    apply_constant_folding c position
  else c

/-- Driver pass 1, code component: left-to-right constant folding (the
positions come from `range(len(...))`, and folding preserves length). -/
def constant_folding_pass (code : List ThreeAddressCode) : List ThreeAddressCode :=
  (List.range code.length).foldl constantFoldingStep code

/-- One iteration of driver pass 1 with the state/log bookkeeping of
`optimize`. -/
def optPass1Step (acc : List ThreeAddressCode × RLOptimizerState × List String)
    (position : Nat) : List ThreeAddressCode × RLOptimizerState × List String :=
  let (c, s, lg) := acc
  let instr := c.getD position default
  if isArithOp instr.operation && is_constantO instr.arg1 && is_constantO instr.arg2 then
    let new_code := apply_constant_folding c position
    if listChanged new_code c then
      (new_code, analyze_code new_code s,
        lg ++ ["Applied constant_folding at position " ++ natToStr position ++
               " (reward: 15.00)"])
    else (c, s, lg)
  else acc

/-- Driver pass 1 with the state/log bookkeeping of `optimize`. -/
def optPass1 (code : List ThreeAddressCode) (st : RLOptimizerState) (log : List String) :
    List ThreeAddressCode × RLOptimizerState × List String :=
  (List.range code.length).foldl optPass1Step (code, st, log)

/-- Driver pass 2: hoist the constant assignments found in the *initial*
candidate list (Python iterates the originally bound list even though the
name is rebound inside the loop), re-discovering loops after each change. -/
def optPass2Step (acc : List ThreeAddressCode × List LoopRec × RLOptimizerState × List String)
    (ca : ConstAssign) :
    List ThreeAddressCode × List LoopRec × RLOptimizerState × List String :=
  let (c, lps, s, lg) := acc
  let new_code := apply_loop_invariant_motion c ca.position ca.loop_idx lps
  if listChanged new_code c then
    (new_code, find_loops new_code, analyze_code new_code s,
      lg ++ ["Applied loop_invariant_motion at position " ++ natToStr ca.position ++
             " (reward: 30.00)"])
  else acc

/-- Driver pass 2, folded over the initially discovered candidates. -/
def optPass2 (cas : List ConstAssign) (code : List ThreeAddressCode) (loops : List LoopRec)
    (st : RLOptimizerState) (log : List String) :
    List ThreeAddressCode × List LoopRec × RLOptimizerState × List String :=
  cas.foldl optPass2Step (code, loops, st, log)

/-- Driver pass 3: dead-code elimination, not advancing past a deletion.
Fuelled; each step either advances the position or shortens the code, so
fuel `2 * length + 2` always suffices. -/
def optPass3 : Nat → List ThreeAddressCode → Nat → RLOptimizerState → List String →
    List ThreeAddressCode × RLOptimizerState × List String
  | 0, code, _, st, log => (code, st, log)
  | fuel + 1, code, position, st, log =>
    if position < code.length then
      let instr := code.getD position default
      if truthy instr.result &&
          !is_variable_used_later code position (instr.result.getD "") &&
          !isEffectfulOp instr.operation then
        let new_code := apply_dead_code_elimination code position
        if new_code.length ≠ code.length then
          optPass3 fuel new_code position (analyze_code new_code st)
            (log ++ ["Applied dead_code_elimination at position " ++ natToStr position ++
                     " (reward: 25.00)"])
        else optPass3 fuel code (position + 1) st log
      else optPass3 fuel code (position + 1) st log
    else (code, st, log)

/-- The code component of driver pass 3, as a standalone pass. -/
def dead_code_elimination_pass (code : List ThreeAddressCode) : List ThreeAddressCode :=
  (optPass3 (2 * code.length + 2) code 0 ⟨[], fun _ => [], fun _ => []⟩ []).1

/-- `RLOptimizer.optimize`: the fixed four-pass deterministic driver.  The
final component is `none` when `fixFuel` is insufficient for pass 4 (the
original would still be recursing); the state and log components are those
accumulated through passes 1–3, which always terminate. -/
def optimize (fixFuel : Nat) (st : RLOptimizerState) (code : List ThreeAddressCode) :
    RLOptimizerState × Option (List ThreeAddressCode) × List String :=
  let st0 := analyze_code code st
  let (c1, st1, log1) := optPass1 code st0 []
  let loops := find_loops c1
  let cas := find_constant_assignments c1 loops
  let (c2, _, st2, log2) := optPass2 cas c1 loops st1 log1
  let (c3, st3, log3) := optPass3 (2 * c2.length + 2) c2 0 st2 log2
  (st3, fix_loop_control_flow fixFuel c3, log3)

/-! ## Derived / claim-side definitions -/

/-- The front end through IR generation (`compiler.py` stages 1, 2 and 4):
tokenize, parse, lower.  `none` on a lex or parse failure. -/
def compileIR (s : String) : Option (List ThreeAddressCode) :=
  match tokenize s with
  | .error _ => none
  | .ok ts =>
    match parse ts with
    | .error _ => none
    | .ok p => some (generate p)

/-- The front end through parsing only. -/
def frontAST (s : String) : Option Program :=
  match tokenize s with
  | .error _ => none
  | .ok ts =>
    match parse ts with
    | .error _ => none
    | .ok p => some p

/-- Pointwise model of one constant-folding application: what
`apply_constant_folding` puts at the position it rewrites (or the unchanged
instruction when it refuses). -/
def foldOne (instr : ThreeAddressCode) : ThreeAddressCode :=
  if isArithOp instr.operation && is_constantO instr.arg1 && is_constantO instr.arg2 then
    match parseNum (instr.arg1.getD ""), parseNum (instr.arg2.getD "") with
    | some val1, some val2 =>
      if instr.operation == "/" && val2 == 0 then instr
      else
        let result : ℚ :=
          if instr.operation == "+" then val1 + val2
          else if instr.operation == "-" then val1 - val2
          else if instr.operation == "*" then val1 * val2
          else val1 / val2
        let result_str := if result.den = 1 then intStr result.num else pyFloatRepr result
        ⟨"ASSIGN", some result_str, none, instr.result⟩
    | _, _ => instr
  else instr

/-- Whether some instruction of the list reads `v`. -/
def usedInList (l : List ThreeAddressCode) (v : String) : Bool :=
  l.any (fun ins => usesVar ins v)

/-- List-recursion model of the driver's dead-code-elimination pass: keep
the head unless it has a truthy result that no later instruction reads and a
non-effectful operation.  (`optPass3` is proved equal to this.) -/
def dce_go : List ThreeAddressCode → List ThreeAddressCode
  | [] => []
  | ins :: rest =>
    if truthy ins.result && !usedInList rest (ins.result.getD "") &&
        !isEffectfulOp ins.operation then
      dce_go rest
    else ins :: dce_go rest

/-- A removal discipline relating an instruction sequence to the sequence
that survives a dead-code-elimination pass over it: every removed
instruction is neither `PRINT` nor `SCAN`, and its result (when it names a
location: nonempty and not a literal) is not read by *any* later
instruction — surviving or not. -/
inductive SafeRemovals : List ThreeAddressCode → List ThreeAddressCode → Prop
  | nil : SafeRemovals [] []
  | keep (x : ThreeAddressCode) {rest out : List ThreeAddressCode} :
      SafeRemovals rest out → SafeRemovals (x :: rest) (x :: out)
  | drop (x : ThreeAddressCode) {rest out : List ThreeAddressCode} :
      x.operation ≠ "PRINT" → x.operation ≠ "SCAN" →
      (∀ r, x.result = some r → r ≠ "" → ¬is_constant r →
        ∀ ins ∈ rest, ins.arg1 ≠ some r ∧ ins.arg2 ≠ some r) →
      SafeRemovals rest out → SafeRemovals (x :: rest) out

/-- The number of expression-operator nodes (binary and unary operations). -/
def exprOpCount : Expr → Nat
  | .numberLiteral _ => 0
  | .stringLiteral _ => 0
  | .identifier _ => 0
  | .binaryOperation l _ r => exprOpCount l + exprOpCount r + 1
  | .unaryOperation _ e => exprOpCount e + 1

/-- Expression-operator nodes of a statement with no `while`/`if`. -/
def stmtOpCount : Stmt → Nat
  | .assignmentStatement _ _ v => exprOpCount v
  | .printStatement e => exprOpCount e
  | .scanStatement _ => 0
  | .whileStatement c _ => exprOpCount c
  | .ifStatement c _ _ => exprOpCount c

/-- A statement that is neither a `while` nor an `if`. -/
def isFlatStmt : Stmt → Bool
  | .whileStatement _ _ => false
  | .ifStatement _ _ _ => false
  | _ => true

/-- A compound (`+=`/`-=`) assignment. -/
def isCompoundAssign : Stmt → Bool
  | .assignmentStatement _ op _ => op == "+=" || op == "-="
  | _ => false

/-- An assignment operator the generator recognises (the parser produces
only these three). -/
def hasValidOp : Stmt → Bool
  | .assignmentStatement _ op _ => op == "=" || op == "+=" || op == "-="
  | _ => true

mutual

/-- Names defined (as assignment or scan targets) anywhere in a statement. -/
def definedTargets : Stmt → List String
  | .assignmentStatement t _ _ => [t]
  | .scanStatement t => [t]
  | .printStatement _ => []
  | .whileStatement _ b => definedTargetsList b
  | .ifStatement _ tb eb =>
    definedTargetsList tb ++ (match eb with | some l => definedTargetsList l | none => [])

/-- Names defined anywhere in a statement list. -/
def definedTargetsList : List Stmt → List String
  | [] => []
  | s :: r => definedTargets s ++ definedTargetsList r

end

/-- Names referenced by an expression. -/
def exprRefs : Expr → List String
  | .numberLiteral _ => []
  | .stringLiteral _ => []
  | .identifier n => [n]
  | .binaryOperation l _ r => exprRefs l ++ exprRefs r
  | .unaryOperation _ e => exprRefs e

/-- Classification of a lexer outcome against an input fragment `cs`:
a success ends in an EOF token; an unterminated-string error can only
arise when `cs` contains a double quote; an unknown-character error
names a character occurring in `cs`. -/
def LexClass (r : Except LexErr (List Token)) (cs : List Char) : Prop :=
  (∀ ts, r = .ok ts → ∃ l2 c2, ts.getLast? = some ⟨TokenType.EOF, "", l2, c2⟩) ∧
  (∀ l, r = .error (.unterminatedString l) → '"' ∈ cs) ∧
  (∀ ch l k, r = .error (.unknownChar ch l k) → ch ∈ cs)

/-! # Theorems -/

/-! ## C1: the `x = 2; y = x + 3; print(y);` scenario -/

/-- C1, counterexample: lowering `x = 2; y = x + 3; print(y);` yields **3**
ASSIGN/binary instructions plus the PRINT (not 2), and the constant-folding
pass leaves this IR **unchanged** — the addition's first operand is the
variable `x`, not a constant, and no constant propagation exists — so
neither assignment collapses and `y` is never assigned the literal `5`. -/
theorem c1_fold_scenario_counterexample :
    compileIR "x = 2; y = x + 3; print(y);" = some
      [⟨"ASSIGN", some "2.0", none, some "x"⟩,
       ⟨"+", some "x", some "3.0", some "t1"⟩,
       ⟨"ASSIGN", some "t1", none, some "y"⟩,
       ⟨"PRINT", some "y", none, none⟩] ∧
    (([⟨"ASSIGN", some "2.0", none, some "x"⟩,
       ⟨"+", some "x", some "3.0", some "t1"⟩,
       ⟨"ASSIGN", some "t1", none, some "y"⟩,
       ⟨"PRINT", some "y", none, none⟩] : List ThreeAddressCode).filter
        (fun i => i.operation != "PRINT")).length = 3 ∧
    constant_folding_pass
      [⟨"ASSIGN", some "2.0", none, some "x"⟩,
       ⟨"+", some "x", some "3.0", some "t1"⟩,
       ⟨"ASSIGN", some "t1", none, some "y"⟩,
       ⟨"PRINT", some "y", none, none⟩] =
      [⟨"ASSIGN", some "2.0", none, some "x"⟩,
       ⟨"+", some "x", some "3.0", some "t1"⟩,
       ⟨"ASSIGN", some "t1", none, some "y"⟩,
       ⟨"PRINT", some "y", none, none⟩] := by
  refine ⟨by decide, by decide, by decide⟩

/-- C1 (amended): lowering `x = 2; y = x + 3; print(y);` produces exactly
one literal ASSIGN for `x`, one binary `+` into `t1`, one ASSIGN of `t1`
into `y`, and one PRINT (3 ASSIGN/binary instructions plus PRINT), and the
optimizer's constant-folding pass returns that IR unchanged (the `+` reads
the variable `x`, so no operand pair is constant and nothing folds). -/
theorem c1_fold_scenario :
    compileIR "x = 2; y = x + 3; print(y);" = some
      [⟨"ASSIGN", some "2.0", none, some "x"⟩,
       ⟨"+", some "x", some "3.0", some "t1"⟩,
       ⟨"ASSIGN", some "t1", none, some "y"⟩,
       ⟨"PRINT", some "y", none, none⟩] ∧
    constant_folding_pass
      [⟨"ASSIGN", some "2.0", none, some "x"⟩,
       ⟨"+", some "x", some "3.0", some "t1"⟩,
       ⟨"ASSIGN", some "t1", none, some "y"⟩,
       ⟨"PRINT", some "y", none, none⟩] =
      [⟨"ASSIGN", some "2.0", none, some "x"⟩,
       ⟨"+", some "x", some "3.0", some "t1"⟩,
       ⟨"ASSIGN", some "t1", none, some "y"⟩,
       ⟨"PRINT", some "y", none, none⟩] := by
  refine ⟨by decide, by decide⟩

/-! ## C9: `)` and `}` share one token type -/

/-- C9: the Python enum gives `RPAREN` and `RBRACE` the same value
`"RBRACE"`, collapsing them into one member, so the parser accepts either
delimiter: `print(1};` parses successfully to the same `Program` as the
correctly delimited `print(1);`. -/
theorem c9_rparen_rbrace_alias :
    TokenType.RBRACE = TokenType.RPAREN ∧
    frontAST "print(1\x7d;" = frontAST "print(1);" ∧
    frontAST "print(1\x7d;" = some ⟨[.printStatement (.numberLiteral 1)]⟩ := by
  refine ⟨rfl, rfl, rfl⟩

/-! ## C4: termination of `fix_loop_control_flow` -/

/-- C4, counterexample: `fix_loop_control_flow` does **not** terminate on
every finite input.  On `[IF_FALSE c L1; t1 = x + 1.0; GOTO L1]` the first
scan fires (the `IF_FALSE` condition `c` has no earlier definition, a
`GOTO` follows, and the loop variable `x` is truthy), but `x` contains
neither `i` nor `j`, so nothing is inserted and the function recurses on an
unchanged list, forever: no amount of fuel makes the embedded recursion
return. -/
theorem c4_fix_nontermination :
    ¬ FixTerminates
      [⟨"IF_FALSE", some "c", some "L1", none⟩,
       ⟨"+", some "x", some "1.0", some "t1"⟩,
       ⟨"GOTO", some "L1", none, none⟩] := by
  have hstep : fixStep
      [⟨"IF_FALSE", some "c", some "L1", none⟩,
       ⟨"+", some "x", some "1.0", some "t1"⟩,
       ⟨"GOTO", some "L1", none, none⟩] = some
      [⟨"IF_FALSE", some "c", some "L1", none⟩,
       ⟨"+", some "x", some "1.0", some "t1"⟩,
       ⟨"GOTO", some "L1", none, none⟩] := by decide
  rintro ⟨fuel, h⟩
  have hall : ∀ n, fix_loop_control_flow n
      [⟨"IF_FALSE", some "c", some "L1", none⟩,
       ⟨"+", some "x", some "1.0", some "t1"⟩,
       ⟨"GOTO", some "L1", none, none⟩] = none := by
    intro n
    induction n with
    | zero => rfl
    | succ k ih => rw [fix_loop_control_flow, hstep]; exact ih
  rw [hall fuel] at h
  simp at h

/-- C4 (amended): `fix_loop_control_flow` terminates — in a single scan,
returning its input unchanged — on every finite input containing no `+`
instruction (neither repair loop can fire without one); on general inputs it
need not terminate. -/
theorem c4_fix_terminates_no_plus (code : List ThreeAddressCode)
    (h : ∀ ins ∈ code, ins.operation ≠ "+") :
    fix_loop_control_flow 1 code = some code ∧ FixTerminates code := by
  have hplus : ∀ j : Nat, (code.getD j default).operation ≠ "+" := by
    intro j
    by_cases hlt : j < code.length
    · rw [List.getD_eq_getElem _ _ hlt]
      exact h _ (List.getElem_mem hlt)
    · rw [List.getD_eq_default _ _ (Nat.le_of_not_lt hlt)]
      decide
  have hfind : ∀ l : List Nat,
      List.find? (fun j =>
        (code.getD j default).operation == "+" && truthy (code.getD j default).result) l
        = none := by
    intro l
    rw [List.find?_eq_none]
    intro j _ hc
    rw [Bool.and_eq_true, beq_iff_eq] at hc
    exact hplus j hc.1
  have h1 : ∀ i ∈ List.range code.length, ¬ fixLoop1Fires code i = true := by
    intro i _
    cases hg : firstGotoAfter code i with
    | none => simp [fixLoop1Fires, hg]
    | some le =>
      have hlv : findLoopVar code i le = none := by
        unfold findLoopVar
        rw [hfind]
        rfl
      simp [fixLoop1Fires, hg, hlv]
  have h2 : ∀ i ∈ List.range code.length, ¬ fixLoop2Fires code i = true := by
    intro i _ hc
    unfold fixLoop2Fires at hc
    simp only [Bool.and_eq_true, beq_iff_eq] at hc
    exact hplus i (by tauto)
  have hstep : fixStep code = none := by
    unfold fixStep
    rw [List.find?_eq_none.mpr h1, List.find?_eq_none.mpr h2]
  refine ⟨?_, ?_⟩
  · rw [fix_loop_control_flow, hstep]
  · exact ⟨1, by rw [fix_loop_control_flow, hstep]; rfl⟩

/-- Witness for the amended C4 theorem at a concrete `+`-free input. -/
theorem c4_fix_terminates_no_plus_witness :
    (∀ ins ∈ ([⟨"PRINT", some "x", none, none⟩] : List ThreeAddressCode),
      ins.operation ≠ "+") ∧
    fix_loop_control_flow 1 [⟨"PRINT", some "x", none, none⟩] =
      some [⟨"PRINT", some "x", none, none⟩] :=
  ⟨by decide, (c4_fix_terminates_no_plus _ (by decide)).1⟩

/-! ## C6: the driver never touches the Q-table -/

theorem analyze_code_qtable (c : List ThreeAddressCode) (st : RLOptimizerState) :
    (analyze_code c st).q_table = st.q_table := rfl

theorem optPass1Step_qtable (acc : List ThreeAddressCode × RLOptimizerState × List String)
    (p : Nat) : ((optPass1Step acc p).2.1).q_table = acc.2.1.q_table := by
  obtain ⟨c, s, lg⟩ := acc
  unfold optPass1Step
  dsimp only
  split
  · split <;> rfl
  · rfl

theorem optPass1_qtable (code : List ThreeAddressCode) (st : RLOptimizerState)
    (log : List String) : ((optPass1 code st log).2.1).q_table = st.q_table := by
  unfold optPass1
  have h : ∀ (l : List Nat) (acc : List ThreeAddressCode × RLOptimizerState × List String),
      ((l.foldl optPass1Step acc).2.1).q_table = acc.2.1.q_table := by
    intro l
    induction l with
    | nil => intro acc; rfl
    | cons p t ih => intro acc; rw [List.foldl_cons, ih, optPass1Step_qtable]
  exact h _ _

theorem optPass2Step_qtable
    (acc : List ThreeAddressCode × List LoopRec × RLOptimizerState × List String)
    (ca : ConstAssign) : ((optPass2Step acc ca).2.2.1).q_table = acc.2.2.1.q_table := by
  obtain ⟨c, lps, s, lg⟩ := acc
  unfold optPass2Step
  dsimp only
  split <;> rfl

theorem optPass2_qtable (cas : List ConstAssign) (code : List ThreeAddressCode)
    (loops : List LoopRec) (st : RLOptimizerState) (log : List String) :
    ((optPass2 cas code loops st log).2.2.1).q_table = st.q_table := by
  unfold optPass2
  have h : ∀ (l : List ConstAssign)
      (acc : List ThreeAddressCode × List LoopRec × RLOptimizerState × List String),
      ((l.foldl optPass2Step acc).2.2.1).q_table = acc.2.2.1.q_table := by
    intro l
    induction l with
    | nil => intro acc; rfl
    | cons ca t ih => intro acc; rw [List.foldl_cons, ih, optPass2Step_qtable]
  exact h _ _

theorem optPass3_qtable : ∀ (fuel : Nat) (code : List ThreeAddressCode) (pos : Nat)
    (st : RLOptimizerState) (log : List String),
    ((optPass3 fuel code pos st log).2.1).q_table = st.q_table := by
  intro fuel
  induction fuel with
  | zero => intro code pos st log; rfl
  | succ k ih =>
    intro code pos st log
    simp only [optPass3]
    split
    · split
      · split
        · rw [ih, analyze_code_qtable]
        · rw [ih]
      · rw [ih]
    · rfl

/-- C6: running the deterministic driver `optimize` leaves the optimizer's
Q-table unchanged — for every fuel bound, prior instance state and input
instruction sequence, the `q_table` component of the state after the call
equals the `q_table` before it. -/
theorem c6_optimize_qtable_frame (fixFuel : Nat) (st : RLOptimizerState)
    (code : List ThreeAddressCode) :
    (optimize fixFuel st code).1.q_table = st.q_table := by
  unfold optimize
  rcases hE1 : optPass1 code (analyze_code code st) [] with ⟨c1, st1, log1⟩
  rcases hE2 : optPass2 (find_constant_assignments c1 (find_loops c1)) c1
    (find_loops c1) st1 log1 with ⟨c2, l2, st2, log2⟩
  rcases hE3 : optPass3 (2 * c2.length + 2) c2 0 st2 log2 with ⟨c3, st3, log3⟩
  have h1 := optPass1_qtable code (analyze_code code st) []
  have h2 := optPass2_qtable (find_constant_assignments c1 (find_loops c1)) c1
    (find_loops c1) st1 log1
  have h3 := optPass3_qtable (2 * c2.length + 2) c2 0 st2 log2
  rw [hE1] at h1
  rw [hE2] at h2
  rw [hE3] at h3
  dsimp only at h1 h2 h3
  simp only [hE1, hE2, hE3]
  rw [h3, h2, h1, analyze_code_qtable]


/-! ## C7: constant folding is idempotent -/

theorem list_set_getD_self (l : List ThreeAddressCode) (n : Nat) :
    l.set n (l.getD n default) = l := by
  induction l generalizing n with
  | nil => rfl
  | cons h t ih =>
    cases n with
    | zero => rfl
    | succ m =>
      simp only [List.set_cons_succ, List.cons.injEq, true_and]
      exact ih m

/-- `apply_constant_folding` rewrites exactly position `p` to `foldOne` of
the instruction there (and is the identity past the end). -/
theorem apply_constant_folding_eq_set (code : List ThreeAddressCode) (p : Nat) :
    apply_constant_folding code p = code.set p (foldOne (code.getD p default)) := by
  unfold apply_constant_folding foldOne
  by_cases hge : p ≥ code.length
  · rw [if_pos hge, List.set_eq_of_length_le hge]
  · rw [if_neg hge]
    cases hg : (isArithOp (code.getD p default).operation &&
        is_constantO (code.getD p default).arg1 &&
        is_constantO (code.getD p default).arg2) with
    | false => simp only [hg, Bool.false_eq_true, if_false, list_set_getD_self]
    | true =>
      simp only [hg, if_true]
      cases hp1 : parseNum ((code.getD p default).arg1.getD "") with
      | none => rw [list_set_getD_self]
      | some val1 =>
        cases hp2 : parseNum ((code.getD p default).arg2.getD "") with
        | none => rw [list_set_getD_self]
        | some val2 =>
          cases hdz : ((code.getD p default).operation == "/" && val2 == 0) with
          | true => simp only [hdz, if_true, list_set_getD_self]
          | false => simp only [hdz, Bool.false_eq_true, if_false]

/-- The driver's pre-checked step agrees with the same rewrite. -/
theorem constantFoldingStep_eq_set (c : List ThreeAddressCode) (p : Nat) :
    constantFoldingStep c p = c.set p (foldOne (c.getD p default)) := by
  unfold constantFoldingStep
  cases hg : (isArithOp (c.getD p default).operation &&
      is_constantO (c.getD p default).arg1 && is_constantO (c.getD p default).arg2) with
  | true =>
    simp only [hg, if_true]
    exact apply_constant_folding_eq_set c p
  | false =>
    have hfix : foldOne (c.getD p default) = c.getD p default := by
      unfold foldOne
      simp only [hg, Bool.false_eq_true, if_false]
    simp only [hg, Bool.false_eq_true, if_false, hfix, list_set_getD_self]

theorem take_succ_set (c : List ThreeAddressCode) (k : Nat) (x : ThreeAddressCode)
    (h : k < c.length) : (c.set k x).take (k + 1) = c.take k ++ [x] := by
  induction c generalizing k with
  | nil => simp at h
  | cons hd t ih =>
    cases k with
    | zero => simp
    | succ m =>
      simp only [List.set_cons_succ, List.take_succ_cons, List.cons_append,
        List.cons.injEq, true_and]
      exact ih m (by simpa using h)

theorem drop_succ_set (c : List ThreeAddressCode) (k : Nat) (x : ThreeAddressCode) :
    (c.set k x).drop (k + 1) = c.drop (k + 1) := by
  induction c generalizing k with
  | nil => rfl
  | cons hd t ih =>
    cases k with
    | zero => rfl
    | succ m =>
      simp only [List.set_cons_succ, List.drop_succ_cons]
      exact ih m

/-- The fold over positions `k, k+1, …` maps `foldOne` over the tail from
`k`, leaving the prefix alone. -/
theorem constant_folding_go : ∀ (m k : Nat) (c : List ThreeAddressCode),
    k + m = c.length →
    (List.range' k m).foldl constantFoldingStep c = c.take k ++ (c.drop k).map foldOne := by
  intro m
  induction m with
  | zero =>
    intro k c hk
    simp only [List.range', List.foldl_nil]
    rw [Nat.add_zero] at hk
    rw [hk]
    simp
  | succ n ih =>
    intro k c hk
    rw [List.range'_succ, List.foldl_cons, constantFoldingStep_eq_set]
    have hklt : k < c.length := by omega
    have hlen : k + 1 + n = (c.set k (foldOne (c.getD k default))).length := by
      simp only [List.length_set]
      omega
    rw [ih (k + 1) _ hlen, take_succ_set _ _ _ hklt, drop_succ_set,
      List.drop_eq_getElem_cons hklt, List.getD_eq_getElem _ _ hklt, List.map_cons,
      List.append_assoc, List.singleton_append]

/-- The whole pass maps `foldOne` over the sequence. -/
theorem constant_folding_pass_eq_map (code : List ThreeAddressCode) :
    constant_folding_pass code = code.map foldOne := by
  unfold constant_folding_pass
  rw [List.range_eq_range', constant_folding_go code.length 0 code (by simp)]
  simp

/-- `foldOne` leaves alone any instruction whose operation is not
arithmetic. -/
theorem foldOne_not_arith (y : ThreeAddressCode) (h : isArithOp y.operation = false) :
    foldOne y = y := by
  unfold foldOne
  simp [h]

/-- `foldOne` either refuses (identity) or produces an `ASSIGN`. -/
theorem foldOne_cases (x : ThreeAddressCode) :
    foldOne x = x ∨ (foldOne x).operation = "ASSIGN" := by
  unfold foldOne
  cases hg : (isArithOp x.operation && is_constantO x.arg1 && is_constantO x.arg2) with
  | false => left; simp
  | true =>
    simp only [if_true]
    cases hp1 : parseNum (x.arg1.getD "") with
    | none => left; rfl
    | some val1 =>
      cases hp2 : parseNum (x.arg2.getD "") with
      | none => left; rfl
      | some val2 =>
        cases hdz : (x.operation == "/" && val2 == 0) with
        | true => left; simp [hdz]
        | false => right; simp [hdz]

/-- A folded instruction is a fixed point of `foldOne`: an effective fold
produces an `ASSIGN`, which is not an arithmetic operation. -/
theorem foldOne_idem (x : ThreeAddressCode) : foldOne (foldOne x) = foldOne x := by
  rcases foldOne_cases x with h | h
  · rw [h]
    exact h
  · refine foldOne_not_arith _ ?_
    rw [h]
    rfl

/-- C7: constant folding is idempotent.  Applying the driver's
constant-folding pass to its own output returns that output unchanged, and
`apply_constant_folding` at any position of an already-folded sequence is
the identity. -/
theorem c7_constant_folding_idempotent (code : List ThreeAddressCode) :
    constant_folding_pass (constant_folding_pass code) = constant_folding_pass code ∧
    ∀ p : Nat, apply_constant_folding (constant_folding_pass code) p =
      constant_folding_pass code := by
  constructor
  · rw [constant_folding_pass_eq_map, constant_folding_pass_eq_map, List.map_map]
    exact List.map_congr_left (fun a _ => foldOne_idem a)
  · intro p
    rw [constant_folding_pass_eq_map, apply_constant_folding_eq_set]
    by_cases hp : p < code.length
    · have hgd : (code.map foldOne).getD p default = foldOne (code.getD p default) := by
        rw [List.getD_eq_getElem _ _ (show p < (code.map foldOne).length by simpa using hp),
          List.getD_eq_getElem _ _ hp, List.getElem_map]
      rw [hgd, foldOne_idem, ← hgd, list_set_getD_self]
    · rw [List.set_eq_of_length_le]
      simpa using Nat.le_of_not_lt hp

/-! ## C3: dead-code elimination never removes PRINT/SCAN or live code -/

theorem dce_go_nil : dce_go [] = [] := rfl

theorem dce_go_cons (x : ThreeAddressCode) (rest : List ThreeAddressCode) :
    dce_go (x :: rest) =
      if (truthy x.result && !usedInList rest (x.result.getD "") &&
          !isEffectfulOp x.operation) = true then dce_go rest
      else x :: dce_go rest := rfl

/-- `is_variable_used_later` sees exactly the uses in the suffix after the
position. -/
theorem used_later_eq_drop (code : List ThreeAddressCode) (pos : Nat) (v : String) :
    is_variable_used_later code pos v = usedInList (code.drop (pos + 1)) v := by
  rw [Bool.eq_iff_iff]
  unfold is_variable_used_later usedInList usedPositions
  simp only [List.any_eq_true, List.mem_filter, List.mem_range, decide_eq_true_eq]
  constructor
  · rintro ⟨i, ⟨hi, hu⟩, hpi⟩
    have hj : i - (pos + 1) < (code.drop (pos + 1)).length := by
      simp only [List.length_drop]
      omega
    refine ⟨(code.drop (pos + 1))[i - (pos + 1)], List.getElem_mem hj, ?_⟩
    rw [List.getElem_drop]
    have hidx : pos + 1 + (i - (pos + 1)) = i := by omega
    rw [List.getD_eq_getElem _ _ hi] at hu
    simp only [hidx]
    exact hu
  · rintro ⟨x, hx, hu⟩
    rcases List.mem_iff_getElem.mp hx with ⟨j, hj, hxe⟩
    have hjlen : pos + 1 + j < code.length := by
      simp only [List.length_drop] at hj
      omega
    refine ⟨pos + 1 + j, ⟨hjlen, ?_⟩, by omega⟩
    rw [List.getD_eq_getElem _ _ hjlen, ← List.getElem_drop code, hxe]
    exact hu

/-- Under the driver's removal guard, the primitive erases the position. -/
theorem apply_dce_erase (code : List ThreeAddressCode) (pos : Nat)
    (hlt : pos < code.length)
    (htr : truthy (code.getD pos default).result = true)
    (hnu : is_variable_used_later code pos ((code.getD pos default).result.getD "") = false)
    (hne : isEffectfulOp (code.getD pos default).operation = false) :
    apply_dead_code_elimination code pos = code.eraseIdx pos := by
  unfold apply_dead_code_elimination
  rw [if_neg (by omega : ¬ pos ≥ code.length)]
  simp only [hne, Bool.false_eq_true, if_false, htr, hnu, Bool.and_false]

/-- The driver's third pass computes `dce_go` on the suffix from the current
position, with enough fuel. -/
theorem optPass3_code_eq : ∀ (fuel : Nat) (code : List ThreeAddressCode) (pos : Nat)
    (st : RLOptimizerState) (log : List String), 2 * (code.length - pos) < fuel →
    (optPass3 fuel code pos st log).1 = code.take pos ++ dce_go (code.drop pos) := by
  intro fuel
  induction fuel with
  | zero => intro code pos st log h; omega
  | succ k ih =>
    intro code pos st log hfuel
    simp only [optPass3]
    by_cases hlt : pos < code.length
    · rw [if_pos hlt]
      have hdrop : code.drop pos = code[pos] :: code.drop (pos + 1) :=
        List.drop_eq_getElem_cons hlt
      have hgd : code.getD pos default = code[pos] := List.getD_eq_getElem _ _ hlt
      cases hguard : (truthy (code.getD pos default).result &&
          !is_variable_used_later code pos ((code.getD pos default).result.getD "") &&
          !isEffectfulOp (code.getD pos default).operation) with
      | true =>
        simp only [hguard, if_true]
        rw [Bool.and_eq_true, Bool.and_eq_true] at hguard
        obtain ⟨⟨htr, hnu⟩, hne⟩ := hguard
        rw [Bool.not_eq_true'] at hnu hne
        have herase := apply_dce_erase code pos hlt htr hnu hne
        have hlen : (apply_dead_code_elimination code pos).length = code.length - 1 := by
          rw [herase, List.length_eraseIdx]
          simp [hlt]
        rw [if_pos (by omega : (apply_dead_code_elimination code pos).length ≠ code.length)]
        rw [ih _ _ _ _ (by rw [hlen]; omega)]
        rw [herase, List.eraseIdx_eq_take_drop_succ]
        rw [List.take_left' (by simp [hlt.le] : (code.take pos).length = pos),
          List.drop_left' (by simp [hlt.le] : (code.take pos).length = pos)]
        have hcond : (truthy code[pos].result &&
            !usedInList (code.drop (pos + 1)) (code[pos].result.getD "") &&
            !isEffectfulOp code[pos].operation) = true := by
          rw [← hgd, ← used_later_eq_drop, htr, hnu, hne]
          rfl
        rw [hdrop, dce_go_cons, if_pos hcond]
      | false =>
        simp only [hguard, Bool.false_eq_true, if_false]
        rw [ih _ _ _ _ (by omega)]
        have hcond : (truthy code[pos].result &&
            !usedInList (code.drop (pos + 1)) (code[pos].result.getD "") &&
            !isEffectfulOp code[pos].operation) = false := by
          rw [← hgd, ← used_later_eq_drop]
          exact hguard
        rw [hdrop, dce_go_cons, if_neg (by simp [hcond])]
        rw [List.take_succ, List.getElem?_eq_getElem hlt, Option.toList_some,
          List.append_assoc, List.singleton_append]
    · rw [if_neg hlt]
      have hge : code.length ≤ pos := by omega
      rw [List.take_of_length_le hge, List.drop_of_length_le hge, dce_go_nil,
        List.append_nil]

/-- The standalone pass is the list recursion `dce_go`. -/
theorem dead_code_elimination_pass_eq (code : List ThreeAddressCode) :
    dead_code_elimination_pass code = dce_go code := by
  unfold dead_code_elimination_pass
  rw [optPass3_code_eq _ _ _ _ _ (by omega)]
  simp

/-- `dce_go` only performs safe removals. -/
theorem dce_go_safe : ∀ code : List ThreeAddressCode, SafeRemovals code (dce_go code) := by
  intro code
  induction code with
  | nil => exact SafeRemovals.nil
  | cons x rest ih =>
    rw [dce_go_cons]
    cases hc : (truthy x.result && !usedInList rest (x.result.getD "") &&
        !isEffectfulOp x.operation) with
    | false =>
      rw [if_neg (by simp)]
      exact SafeRemovals.keep x ih
    | true =>
      rw [if_pos rfl]
      rw [Bool.and_eq_true, Bool.and_eq_true] at hc
      obtain ⟨⟨htr, hnu⟩, hne⟩ := hc
      rw [Bool.not_eq_true'] at hnu hne
      refine SafeRemovals.drop x ?_ ?_ ?_ ih
      · intro hop
        rw [hop] at hne
        simp [isEffectfulOp] at hne
      · intro hop
        rw [hop] at hne
        simp [isEffectfulOp] at hne
      · intro r hr hrne hrc ins hins
        have hgd : x.result.getD "" = r := by rw [hr]; rfl
        rw [hgd] at hnu
        unfold usedInList at hnu
        rw [List.any_eq_false] at hnu
        have hthis := hnu ins hins
        unfold usesVar at hthis
        rw [Bool.not_eq_true] at hthis
        have hc1 : (r != "") = true := bne_iff_ne.mpr hrne
        have hc2 : (!is_constant r) = true := by
          rw [Bool.not_eq_true']
          exact Bool.eq_false_iff.mpr hrc
        simp only [hc1, hc2, Bool.and_true] at hthis
        simp only [Bool.or_eq_false_iff, beq_eq_false_iff_ne] at hthis
        exact hthis

/-- C3: dead-code elimination is safe.  (i) The primitive never removes a
`PRINT` or `SCAN` instruction.  (ii) The primitive never removes an
instruction whose result (a location: nonempty, non-literal text) is read
by a later instruction.  (iii) The driver's third pass relates its input to
its output by `SafeRemovals`: every instruction it drops is neither `PRINT`
nor `SCAN`, and no later instruction — surviving or not, hence in
particular no later *surviving* instruction — reads the dropped result. -/
theorem c3_dce_safe :
    (∀ (code : List ThreeAddressCode) (pos : Nat) (ins : ThreeAddressCode),
      code[pos]? = some ins → ins.operation = "PRINT" ∨ ins.operation = "SCAN" →
      apply_dead_code_elimination code pos = code) ∧
    (∀ (code : List ThreeAddressCode) (pos : Nat) (ins : ThreeAddressCode) (r : String),
      code[pos]? = some ins → ins.result = some r → r ≠ "" → ¬is_constant r →
      (∃ q ins2, pos < q ∧ code[q]? = some ins2 ∧
        (ins2.arg1 = some r ∨ ins2.arg2 = some r)) →
      apply_dead_code_elimination code pos = code) ∧
    (∀ code : List ThreeAddressCode, SafeRemovals code (dead_code_elimination_pass code)) := by
  refine ⟨?_, ?_, ?_⟩
  · intro code pos ins hget hop
    obtain ⟨hlt, hgetE⟩ := List.getElem?_eq_some.mp hget
    have hgd : code.getD pos default = ins := by
      rw [List.getD_eq_getElem _ _ hlt, hgetE]
    have heff : isEffectfulOp (code.getD pos default).operation = true := by
      rw [hgd]
      rcases hop with h | h <;> rw [h] <;> rfl
    unfold apply_dead_code_elimination
    rw [if_neg (by omega : ¬ pos ≥ code.length), if_pos heff]
  · intro code pos ins r hget hr hrne hrc hreader
    obtain ⟨hlt, hgetE⟩ := List.getElem?_eq_some.mp hget
    have hgd : code.getD pos default = ins := by
      rw [List.getD_eq_getElem _ _ hlt, hgetE]
    unfold apply_dead_code_elimination
    rw [if_neg (by omega : ¬ pos ≥ code.length)]
    by_cases heff : isEffectfulOp (code.getD pos default).operation = true
    · rw [if_pos heff]
    · rw [if_neg heff]
      have htr : truthy (code.getD pos default).result = true := by
        rw [hgd, hr]
        exact bne_iff_ne.mpr hrne
      have hused : is_variable_used_later code pos
          ((code.getD pos default).result.getD "") = true := by
        have hgdr : (code.getD pos default).result.getD "" = r := by rw [hgd, hr]; rfl
        rw [hgdr]
        obtain ⟨q, ins2, hpq, hq, hargs⟩ := hreader
        obtain ⟨hqlt, hqE⟩ := List.getElem?_eq_some.mp hq
        unfold is_variable_used_later usedPositions
        rw [List.any_eq_true]
        refine ⟨q, List.mem_filter.mpr ⟨List.mem_range.mpr hqlt, ?_⟩, by
          simpa using hpq⟩
        unfold usesVar
        rw [List.getD_eq_getElem _ _ hqlt, hqE]
        have h1 : (ins2.arg1 == some r || ins2.arg2 == some r) = true := by
          rcases hargs with h | h <;> simp [h]
        rw [h1, bne_iff_ne.mpr hrne, Bool.eq_false_iff.mpr hrc]
        rfl
      rw [if_pos (by rw [htr, hused]; rfl)]
  · intro code
    rw [dead_code_elimination_pass_eq]
    exact dce_go_safe code

/-- Witness for C3 at a concrete sequence: `a = 1; PRINT a`.  The `PRINT`
at position 1 is never removed, and the assignment at position 0 is not
removed because `a` is read later. -/
theorem c3_dce_safe_witness :
    apply_dead_code_elimination
      [⟨"ASSIGN", some "1", none, some "a"⟩, ⟨"PRINT", some "a", none, none⟩] 1 =
      [⟨"ASSIGN", some "1", none, some "a"⟩, ⟨"PRINT", some "a", none, none⟩] ∧
    apply_dead_code_elimination
      [⟨"ASSIGN", some "1", none, some "a"⟩, ⟨"PRINT", some "a", none, none⟩] 0 =
      [⟨"ASSIGN", some "1", none, some "a"⟩, ⟨"PRINT", some "a", none, none⟩] :=
  ⟨c3_dce_safe.1 _ 1 ⟨"PRINT", some "a", none, none⟩ (by decide) (Or.inl rfl),
   c3_dce_safe.2.1 _ 0 ⟨"ASSIGN", some "1", none, some "a"⟩ "a" (by decide) rfl
     (by decide) (by decide)
     ⟨1, ⟨"PRINT", some "a", none, none⟩, by decide, by decide, Or.inl rfl⟩⟩

/-! ## C8: instruction count for straight-line programs -/

theorem visitExprG_code_length : ∀ (e : Expr) (st : GenSt),
    ((visitExprG e st).2).code.length = st.code.length + exprOpCount e := by
  intro e
  induction e with
  | numberLiteral v => intro st; simp [visitExprG, exprOpCount]
  | stringLiteral s => intro st; simp [visitExprG, exprOpCount]
  | identifier n => intro st; simp [visitExprG, exprOpCount]
  | binaryOperation l op r ihl ihr =>
    intro st
    have hl := ihl st
    rcases hE1 : visitExprG l st with ⟨a, st1⟩
    rw [hE1] at hl
    have hr := ihr st1
    rcases hE2 : visitExprG r st1 with ⟨b, st2⟩
    rw [hE2] at hr
    simp only [visitExprG, hE1, hE2]
    simp only at hl hr
    simp [exprOpCount, hl, hr]
    omega
  | unaryOperation op e ih =>
    intro st
    have he := ih st
    rcases hE1 : visitExprG e st with ⟨a, st1⟩
    rw [hE1] at he
    simp only [visitExprG, hE1]
    simp only at he
    simp [exprOpCount, he]
    omega

theorem visitStmtG_code_length_flat (s : Stmt) (st : GenSt)
    (hf : isFlatStmt s = true) (hv : hasValidOp s = true) :
    (visitStmtG s st).code.length =
      st.code.length + stmtOpCount s + 1 +
        (if isCompoundAssign s then 1 else 0) := by
  cases s with
  | assignmentStatement t op v =>
    have hlen := visitExprG_code_length v st
    rcases hE : visitExprG v st with ⟨value, st1⟩
    rw [hE] at hlen
    simp only at hlen
    by_cases h1 : op = "="
    · simp only [visitStmtG, hE, h1, if_true]
      simp [stmtOpCount, isCompoundAssign, hlen]
    · by_cases h2 : op = "+="
      · simp only [visitStmtG, hE, h1, h2, if_false, if_true]
        simp [stmtOpCount, isCompoundAssign, h2, hlen]
      · by_cases h3 : op = "-="
        · simp only [visitStmtG, hE, h1, h2, h3, if_false, if_true]
          simp [stmtOpCount, isCompoundAssign, h2, h3, hlen]
        · exfalso
          unfold hasValidOp at hv
          simp only [Bool.or_eq_true, beq_iff_eq] at hv
          tauto
  | printStatement e =>
    have hlen := visitExprG_code_length e st
    rcases hE : visitExprG e st with ⟨a, st1⟩
    rw [hE] at hlen
    simp only at hlen
    simp only [visitStmtG, hE]
    simp [stmtOpCount, isCompoundAssign, hlen]
  | scanStatement t =>
    simp [visitStmtG, stmtOpCount, isCompoundAssign]
  | whileStatement c b => simp [isFlatStmt] at hf
  | ifStatement c tb eb => simp [isFlatStmt] at hf

theorem visitStmtsG_code_length_flat : ∀ (l : List Stmt) (st : GenSt),
    (∀ s ∈ l, isFlatStmt s = true) → (∀ s ∈ l, hasValidOp s = true) →
    (visitStmtsG l st).code.length =
      st.code.length + (l.map stmtOpCount).sum + l.length +
        (l.filter isCompoundAssign).length := by
  intro l
  induction l with
  | nil => intro st _ _; simp [visitStmtsG]
  | cons s r ih =>
    intro st hf hv
    have hs := visitStmtG_code_length_flat s st (hf s (by simp)) (hv s (by simp))
    have hr := ih (visitStmtG s st) (fun x hx => hf x (by simp [hx]))
      (fun x hx => hv x (by simp [hx]))
    show (visitStmtsG r (visitStmtG s st)).code.length = _
    rw [hr, hs]
    by_cases hc : isCompoundAssign s
    · simp [hc, List.filter_cons]
      omega
    · simp [hc, List.filter_cons]
      omega

/-- C8, counterexample: the compound assignment `x += 1;` contains no
while/if and no expression-operator node (its value is the literal `1`),
yet the generator emits **2** instructions (`t1 = x + 1.0; x = t1`), not
the 1 (= 0 operators + 1 statement) the claim predicts. -/
theorem c8_count_counterexample :
    frontAST "x += 1;" =
      some ⟨[.assignmentStatement "x" "+=" (.numberLiteral 1)]⟩ ∧
    (generate ⟨[.assignmentStatement "x" "+=" (.numberLiteral 1)]⟩).length = 2 ∧
    (([.assignmentStatement "x" "+=" (.numberLiteral 1)] : List Stmt).map
        stmtOpCount).sum +
      ([.assignmentStatement "x" "+=" (.numberLiteral 1)] : List Stmt).length = 1 := by
  refine ⟨rfl, rfl, rfl⟩

/-- C8 (amended): for every program with no `while`/`if` statement and only
recognised assignment operators, the generated instruction count equals the
number of expression-operator nodes plus one per statement **plus one extra
per compound (`+=`/`-=`) assignment** (which lowers to a binary operation
and an `ASSIGN`). -/
theorem c8_flat_instruction_count (p : Program)
    (hflat : ∀ s ∈ p.statements, isFlatStmt s = true)
    (hops : ∀ s ∈ p.statements, hasValidOp s = true) :
    (generate p).length =
      (p.statements.map stmtOpCount).sum + p.statements.length +
        (p.statements.filter isCompoundAssign).length := by
  unfold generate
  rw [visitStmtsG_code_length_flat p.statements ⟨[], 0, 0⟩ hflat hops]
  simp

/-- Witness for the amended C8 count at `x = 1 + 2; print(x);`. -/
theorem c8_flat_instruction_count_witness :
    (generate ⟨[.assignmentStatement "x" "="
        (.binaryOperation (.numberLiteral 1) "+" (.numberLiteral 2)),
      .printStatement (.identifier "x")]⟩).length =
      (([.assignmentStatement "x" "="
          (.binaryOperation (.numberLiteral 1) "+" (.numberLiteral 2)),
        .printStatement (.identifier "x")] : List Stmt).map stmtOpCount).sum +
        ([.assignmentStatement "x" "="
            (.binaryOperation (.numberLiteral 1) "+" (.numberLiteral 2)),
          .printStatement (.identifier "x")] : List Stmt).length +
        (([.assignmentStatement "x" "="
            (.binaryOperation (.numberLiteral 1) "+" (.numberLiteral 2)),
          .printStatement (.identifier "x")] : List Stmt).filter
            isCompoundAssign).length :=
  c8_flat_instruction_count _ (by decide) (by decide)

/-! ## C10: assignments analyze their value before defining their target -/

theorem visitExprA_symbols : ∀ (e : Expr) (st : AnaState),
    (visitExprA e st).symbols = st.symbols := by
  intro e
  induction e with
  | numberLiteral v => intro st; rfl
  | stringLiteral s => intro st; rfl
  | identifier n =>
    intro st
    unfold visitExprA
    split <;> rfl
  | binaryOperation l op r ihl ihr =>
    intro st
    unfold visitExprA
    split
    · simp only
      rw [ihr, ihl]
    · rw [ihr, ihl]
  | unaryOperation op e ih => intro st; exact ih st

theorem visitExprA_errors_append : ∀ (e : Expr) (st : AnaState),
    ∃ d, (visitExprA e st).errors = st.errors ++ d := by
  intro e
  induction e with
  | numberLiteral v => intro st; exact ⟨[], by simp [visitExprA]⟩
  | stringLiteral s => intro st; exact ⟨[], by simp [visitExprA]⟩
  | identifier n =>
    intro st
    unfold visitExprA
    split
    · exact ⟨[], by simp⟩
    · exact ⟨[undefinedVariableMsg n], rfl⟩
  | binaryOperation l op r ihl ihr =>
    intro st
    obtain ⟨d1, h1⟩ := ihl st
    obtain ⟨d2, h2⟩ := ihr (visitExprA l st)
    unfold visitExprA
    split
    · exact ⟨d1 ++ d2 ++ ["Division by zero"], by simp [h2, h1]⟩
    · exact ⟨d1 ++ d2, by simp [h2, h1]⟩
  | unaryOperation op e ih => intro st; exact ih st

theorem visitExprA_errors_mono (e : Expr) (st : AnaState) (m : String)
    (hm : m ∈ st.errors) : m ∈ (visitExprA e st).errors := by
  obtain ⟨d, hd⟩ := visitExprA_errors_append e st
  rw [hd]
  exact List.mem_append_left _ hm

mutual

theorem visitStmtA_errors_append : ∀ (s : Stmt) (st : AnaState),
    ∃ d, (visitStmtA s st).errors = st.errors ++ d
  | .assignmentStatement t op v, st => by
    obtain ⟨d, hd⟩ := visitExprA_errors_append v st
    exact ⟨d, hd⟩
  | .printStatement e, st => visitExprA_errors_append e st
  | .scanStatement t, st => ⟨[], by simp [visitStmtA]⟩
  | .whileStatement c b, st => by
    obtain ⟨d1, h1⟩ := visitExprA_errors_append c st
    obtain ⟨d2, h2⟩ := visitStmtsA_errors_append b (visitExprA c st)
    exact ⟨d1 ++ d2, by simp [visitStmtA, h2, h1]⟩
  | .ifStatement c tb eb, st => by
    obtain ⟨d1, h1⟩ := visitExprA_errors_append c st
    obtain ⟨d2, h2⟩ := visitStmtsA_errors_append tb (visitExprA c st)
    cases eb with
    | none => exact ⟨d1 ++ d2, by simp [visitStmtA, h2, h1]⟩
    | some el =>
      obtain ⟨d3, h3⟩ := visitStmtsA_errors_append el
        (visitStmtsA tb (visitExprA c st))
      exact ⟨d1 ++ (d2 ++ d3), by simp [visitStmtA, h3, h2, h1]⟩

theorem visitStmtsA_errors_append : ∀ (l : List Stmt) (st : AnaState),
    ∃ d, (visitStmtsA l st).errors = st.errors ++ d
  | [], st => ⟨[], by simp [visitStmtsA]⟩
  | s :: r, st => by
    obtain ⟨d1, h1⟩ := visitStmtA_errors_append s st
    obtain ⟨d2, h2⟩ := visitStmtsA_errors_append r (visitStmtA s st)
    exact ⟨d1 ++ d2, by simp [visitStmtsA, h2, h1]⟩

end

theorem visitStmtsA_errors_mono (l : List Stmt) (st : AnaState) (m : String)
    (hm : m ∈ st.errors) : m ∈ (visitStmtsA l st).errors := by
  obtain ⟨d, hd⟩ := visitStmtsA_errors_append l st
  rw [hd]
  exact List.mem_append_left _ hm

mutual

theorem visitStmtA_symbols_mem : ∀ (s : Stmt) (st : AnaState) (v : String),
    v ∈ (visitStmtA s st).symbols ↔ v ∈ st.symbols ∨ v ∈ definedTargets s
  | .assignmentStatement t op val, st, v => by
    simp only [visitStmtA, definedTargets, List.mem_cons, List.mem_singleton,
      visitExprA_symbols]
    tauto
  | .printStatement e, st, v => by
    simp only [visitStmtA, definedTargets, visitExprA_symbols, List.not_mem_nil,
      or_false]
  | .scanStatement t, st, v => by
    simp only [visitStmtA, definedTargets, List.mem_cons, List.mem_singleton]
    tauto
  | .whileStatement c b, st, v => by
    rw [visitStmtA]
    rw [visitStmtsA_symbols_mem b (visitExprA c st) v, visitExprA_symbols]
    rfl
  | .ifStatement c tb eb, st, v => by
    cases eb with
    | none =>
      rw [visitStmtA]
      rw [visitStmtsA_symbols_mem tb (visitExprA c st) v, visitExprA_symbols]
      simp [definedTargets]
    | some el =>
      rw [visitStmtA]
      rw [visitStmtsA_symbols_mem el (visitStmtsA tb (visitExprA c st)) v,
        visitStmtsA_symbols_mem tb (visitExprA c st) v, visitExprA_symbols]
      simp [definedTargets]
      tauto

theorem visitStmtsA_symbols_mem : ∀ (l : List Stmt) (st : AnaState) (v : String),
    v ∈ (visitStmtsA l st).symbols ↔ v ∈ st.symbols ∨ v ∈ definedTargetsList l
  | [], st, v => by simp [visitStmtsA, definedTargetsList]
  | s :: r, st, v => by
    rw [visitStmtsA]
    rw [visitStmtsA_symbols_mem r (visitStmtA s st) v, visitStmtA_symbols_mem s st v]
    simp [definedTargetsList]
    tauto

end

theorem visitExprA_undefined : ∀ (e : Expr) (st : AnaState) (x : String),
    x ∈ exprRefs e → x ∉ st.symbols →
    undefinedVariableMsg x ∈ (visitExprA e st).errors := by
  intro e
  induction e with
  | numberLiteral v => intro st x hr; simp [exprRefs] at hr
  | stringLiteral s => intro st x hr; simp [exprRefs] at hr
  | identifier n =>
    intro st x hr hnm
    simp only [exprRefs, List.mem_singleton] at hr
    subst hr
    unfold visitExprA
    rw [if_neg hnm]
    simp
  | binaryOperation l op r ihl ihr =>
    intro st x hr hnm
    simp only [exprRefs, List.mem_append] at hr
    have hmem : undefinedVariableMsg x ∈ (visitExprA r (visitExprA l st)).errors := by
      rcases hr with h | h
      · exact visitExprA_errors_mono _ _ _ (ihl st x h hnm)
      · refine ihr (visitExprA l st) x h ?_
        rw [visitExprA_symbols]
        exact hnm
    unfold visitExprA
    split
    · simp only
      exact List.mem_append_left _ hmem
    · exact hmem
  | unaryOperation op e ih => intro st x hr hnm; exact ih st x hr hnm

theorem visitStmtsA_append (l1 l2 : List Stmt) (st : AnaState) :
    visitStmtsA (l1 ++ l2) st = visitStmtsA l2 (visitStmtsA l1 st) := by
  induction l1 generalizing st with
  | nil => rfl
  | cons s r ih =>
    rw [List.cons_append, visitStmtsA, visitStmtsA]
    exact ih (visitStmtA s st)

/-- C10: the analyzer visits an assignment's value before defining its
target.  For every program whose statements are `pre`, then `x op e` with
`e` referencing `x`, then `post`, where `pre` never defines `x` (as an
assignment or scan target, anywhere, including inside bodies), `analyze`
reports `Undefined variable 'x'`; and `x` counts as defined for the
statements after the assignment. -/
theorem c10_self_reference_undefined (pre : List Stmt) (x op : String) (e : Expr)
    (post : List Stmt) (hnd : x ∉ definedTargetsList pre) (href : x ∈ exprRefs e) :
    undefinedVariableMsg x ∈ analyze ⟨pre ++ .assignmentStatement x op e :: post⟩ ∧
    x ∈ (visitStmtsA (pre ++ [.assignmentStatement x op e]) ⟨[], []⟩).symbols := by
  have hx1 : x ∉ (visitStmtsA pre ⟨[], []⟩).symbols := by
    rw [visitStmtsA_symbols_mem]
    simp [hnd]
  constructor
  · unfold analyze
    have hsplit : pre ++ Stmt.assignmentStatement x op e :: post =
        (pre ++ [Stmt.assignmentStatement x op e]) ++ post := by simp
    rw [hsplit, visitStmtsA_append, visitStmtsA_append]
    apply visitStmtsA_errors_mono
    show undefinedVariableMsg x ∈
      (visitStmtsA [Stmt.assignmentStatement x op e] (visitStmtsA pre ⟨[], []⟩)).errors
    rw [visitStmtsA, visitStmtsA, visitStmtA]
    simp only
    exact visitExprA_undefined e _ x href hx1
  · rw [visitStmtsA_append]
    rw [visitStmtsA, visitStmtsA, visitStmtA]
    simp

/-- Witness for C10: in `y = 1; x = x + 1;` the self-referencing assignment
to `x` is flagged, and `x` is defined afterwards. -/
theorem c10_self_reference_undefined_witness :
    ("x" ∉ definedTargetsList [.assignmentStatement "y" "=" (.numberLiteral 1)] ∧
     "x" ∈ exprRefs (.binaryOperation (.identifier "x") "+" (.numberLiteral 1))) ∧
    (undefinedVariableMsg "x" ∈ analyze
      ⟨[.assignmentStatement "y" "=" (.numberLiteral 1),
        .assignmentStatement "x" "+"
          (.binaryOperation (.identifier "x") "+" (.numberLiteral 1))]⟩ ∧
     "x" ∈ (visitStmtsA
        [.assignmentStatement "y" "=" (.numberLiteral 1),
         .assignmentStatement "x" "+"
           (.binaryOperation (.identifier "x") "+" (.numberLiteral 1))]
        ⟨[], []⟩).symbols) := by
  refine ⟨⟨by decide, by decide⟩, ?_⟩
  have h := c10_self_reference_undefined
    [.assignmentStatement "y" "=" (.numberLiteral 1)] "x" "+"
    (.binaryOperation (.identifier "x") "+" (.numberLiteral 1)) []
    (by decide) (by decide)
  simpa using h

/-! ## C5: the two-label shape of `while` lowering -/

theorem natToStrAux_eq_digits : ∀ (fuel n : Nat), n ≤ fuel →
    natToStrAux fuel n = ((Nat.digits 10 n).map digitChar).reverse := by
  intro fuel
  induction fuel with
  | zero =>
    intro n hn
    interval_cases n
    simp [natToStrAux]
  | succ f ih =>
    intro n hn
    cases n with
    | zero => simp [natToStrAux]
    | succ m =>
      rw [natToStrAux]
      rw [Nat.digits_def' (by norm_num : 1 < 10) (Nat.succ_pos m)]
      rw [List.map_cons, List.reverse_cons]
      rw [ih ((m + 1) / 10) ?_]
      have : (m + 1) / 10 < m + 1 := Nat.div_lt_self (Nat.succ_pos m) (by norm_num)
      omega

theorem digitChar_inj_lt : ∀ a < 10, ∀ b < 10, digitChar a = digitChar b → a = b := by
  decide

theorem map_digitChar_inj : ∀ (l1 l2 : List Nat), (∀ x ∈ l1, x < 10) →
    (∀ x ∈ l2, x < 10) → l1.map digitChar = l2.map digitChar → l1 = l2 := by
  intro l1
  induction l1 with
  | nil =>
    intro l2 _ _ h
    cases l2 with
    | nil => rfl
    | cons b t => simp at h
  | cons a t1 ih =>
    intro l2 h1 h2 h
    cases l2 with
    | nil => simp at h
    | cons b t2 =>
      simp only [List.map_cons, List.cons.injEq] at h
      have hab : a = b :=
        digitChar_inj_lt a (h1 a (by simp)) b (h2 b (by simp)) h.1
      rw [hab, ih t2 (fun x hx => h1 x (by simp [hx]))
        (fun x hx => h2 x (by simp [hx])) h.2]

theorem natToStr_inj_pos (a b : Nat) (ha : a ≠ 0) (hb : b ≠ 0)
    (h : natToStr a = natToStr b) : a = b := by
  unfold natToStr at h
  rw [if_neg ha, if_neg hb] at h
  rw [natToStrAux_eq_digits _ _ (Nat.le_succ a),
    natToStrAux_eq_digits _ _ (Nat.le_succ b)] at h
  have hdata := congrArg String.data h
  simp only at hdata
  have hrev := List.reverse_injective hdata
  have hdig := map_digitChar_inj _ _
    (fun x hx => Nat.digits_lt_base (by norm_num) hx)
    (fun x hx => Nat.digits_lt_base (by norm_num) hx) hrev
  exact Nat.digits.injective 10 hdig

theorem labelName_ne (a b : Nat) (ha : a ≠ 0) (hb : b ≠ 0) (hab : a ≠ b) :
    labelName a ≠ labelName b := by
  intro h
  apply hab
  apply natToStr_inj_pos a b ha hb
  have hdata := congrArg String.data h
  unfold labelName at hdata
  simp only [String.data_append] at hdata
  have := List.append_cancel_left hdata
  exact String.ext this

theorem visitExprG_code_append : ∀ (e : Expr) (st : GenSt),
    ∃ d, ((visitExprG e st).2).code = st.code ++ d := by
  intro e
  induction e with
  | numberLiteral v => intro st; exact ⟨[], by simp [visitExprG]⟩
  | stringLiteral s => intro st; exact ⟨[], by simp [visitExprG]⟩
  | identifier n => intro st; exact ⟨[], by simp [visitExprG]⟩
  | binaryOperation l op r ihl ihr =>
    intro st
    obtain ⟨d1, h1⟩ := ihl st
    rcases hE1 : visitExprG l st with ⟨a, st1⟩
    rw [hE1] at h1
    obtain ⟨d2, h2⟩ := ihr st1
    rcases hE2 : visitExprG r st1 with ⟨bb, st2⟩
    rw [hE2] at h2
    simp only at h1 h2
    refine ⟨d1 ++ d2 ++ [⟨op, some a, some bb,
      some (tempName (st2.temp_counter + 1))⟩], ?_⟩
    simp only [visitExprG, hE1, hE2]
    simp [h2, h1]
  | unaryOperation op e ih =>
    intro st
    obtain ⟨d1, h1⟩ := ih st
    rcases hE1 : visitExprG e st with ⟨a, st1⟩
    rw [hE1] at h1
    simp only at h1
    refine ⟨d1 ++ [⟨op, some a, none, some (tempName (st1.temp_counter + 1))⟩], ?_⟩
    simp only [visitExprG, hE1]
    simp [h1]

mutual

theorem visitStmtG_code_append : ∀ (s : Stmt) (st : GenSt),
    ∃ d, (visitStmtG s st).code = st.code ++ d
  | .assignmentStatement t op v, st => by
    obtain ⟨d1, h1⟩ := visitExprG_code_append v st
    rcases hE : visitExprG v st with ⟨value, st1⟩
    rw [hE] at h1
    simp only at h1
    by_cases ho1 : op = "="
    · exact ⟨d1 ++ [⟨"ASSIGN", some value, none, some t⟩],
        by simp [visitStmtG, hE, ho1, h1]⟩
    · by_cases ho2 : op = "+="
      · refine ⟨d1 ++ [⟨"+", some t, some value, some (tempName (st1.temp_counter + 1))⟩,
          ⟨"ASSIGN", some (tempName (st1.temp_counter + 1)), none, some t⟩], ?_⟩
        simp [visitStmtG, hE, ho1, ho2, h1]
      · by_cases ho3 : op = "-="
        · refine ⟨d1 ++ [⟨"-", some t, some value, some (tempName (st1.temp_counter + 1))⟩,
            ⟨"ASSIGN", some (tempName (st1.temp_counter + 1)), none, some t⟩], ?_⟩
          simp [visitStmtG, hE, ho1, ho2, ho3, h1]
        · exact ⟨d1, by simp [visitStmtG, hE, ho1, ho2, ho3, h1]⟩
  | .printStatement e, st => by
    obtain ⟨d1, h1⟩ := visitExprG_code_append e st
    rcases hE : visitExprG e st with ⟨a, st1⟩
    rw [hE] at h1
    simp only at h1
    exact ⟨d1 ++ [⟨"PRINT", some a, none, none⟩], by simp [visitStmtG, hE, h1]⟩
  | .scanStatement t, st =>
    ⟨[⟨"SCAN", none, none, some t⟩], by simp [visitStmtG]⟩
  | .whileStatement c b, st => by
    obtain ⟨d1, h1⟩ := visitExprG_code_append c
      ({ st with
          label_counter := st.label_counter + 2,
          code := st.code ++
            [⟨"LABEL", some (labelName (st.label_counter + 1)), none, none⟩] })
    rcases hE : visitExprG c
      ({ st with
          label_counter := st.label_counter + 2,
          code := st.code ++
            [⟨"LABEL", some (labelName (st.label_counter + 1)), none, none⟩] })
      with ⟨cv, st1⟩
    rw [hE] at h1
    simp only at h1
    obtain ⟨d2, h2⟩ := visitStmtsG_code_append b
      ({ st1 with code := st1.code ++
        [⟨"IF_FALSE", some cv, some (labelName (st.label_counter + 2)), none⟩] })
    refine ⟨[⟨"LABEL", some (labelName (st.label_counter + 1)), none, none⟩] ++ d1 ++
      [⟨"IF_FALSE", some cv, some (labelName (st.label_counter + 2)), none⟩] ++ d2 ++
      [⟨"GOTO", some (labelName (st.label_counter + 1)), none, none⟩,
       ⟨"LABEL", some (labelName (st.label_counter + 2)), none, none⟩], ?_⟩
    simp only [visitStmtG, hE]
    rw [h2]
    simp [h1]
  | .ifStatement c tb eb, st => by
    obtain ⟨d1, h1⟩ := visitExprG_code_append c
      ({ st with label_counter := st.label_counter + 2 })
    rcases hE : visitExprG c ({ st with label_counter := st.label_counter + 2 })
      with ⟨cv, st1⟩
    rw [hE] at h1
    simp only at h1
    obtain ⟨d2, h2⟩ := visitStmtsG_code_append tb
      ({ st1 with code := st1.code ++
        [⟨"IF_FALSE", some cv, some (labelName (st.label_counter + 1)), none⟩] })
    cases eb with
    | none =>
      refine ⟨d1 ++ [⟨"IF_FALSE", some cv, some (labelName (st.label_counter + 1)), none⟩]
        ++ d2 ++ [⟨"LABEL", some (labelName (st.label_counter + 1)), none, none⟩], ?_⟩
      simp only [visitStmtG, hE]
      rw [h2]
      simp [h1]
    | some el =>
      obtain ⟨d3, h3⟩ := visitStmtsG_code_append el
        ({ (visitStmtsG tb ({ st1 with code := st1.code ++
            [⟨"IF_FALSE", some cv, some (labelName (st.label_counter + 1)), none⟩] })) with
          code := (visitStmtsG tb ({ st1 with code := st1.code ++
            [⟨"IF_FALSE", some cv, some (labelName (st.label_counter + 1)), none⟩] })).code ++
            [⟨"GOTO", some (labelName (st.label_counter + 2)), none, none⟩,
             ⟨"LABEL", some (labelName (st.label_counter + 1)), none, none⟩] })
      refine ⟨d1 ++ [⟨"IF_FALSE", some cv, some (labelName (st.label_counter + 1)), none⟩]
        ++ d2 ++ [⟨"GOTO", some (labelName (st.label_counter + 2)), none, none⟩,
          ⟨"LABEL", some (labelName (st.label_counter + 1)), none, none⟩] ++ d3 ++
        [⟨"LABEL", some (labelName (st.label_counter + 2)), none, none⟩], ?_⟩
      simp only [visitStmtG, hE]
      rw [h3, h2]
      simp [h1]

theorem visitStmtsG_code_append : ∀ (l : List Stmt) (st : GenSt),
    ∃ d, (visitStmtsG l st).code = st.code ++ d
  | [], st => ⟨[], by simp [visitStmtsG]⟩
  | s :: r, st => by
    obtain ⟨d1, h1⟩ := visitStmtG_code_append s st
    obtain ⟨d2, h2⟩ := visitStmtsG_code_append r (visitStmtG s st)
    exact ⟨d1 ++ d2, by rw [visitStmtsG, h2, h1, List.append_assoc]⟩

end

/-- C5: lowering a `while` emits, in order: `LABEL(start)`, the condition's
instructions, `IF_FALSE(cond-operand, end)`, the body's instructions,
`GOTO(start)`, `LABEL(end)`, where `start` and `end` are the two labels
freshly allocated for this loop (the next two counter values, and they are
distinct).  `condCode` is exactly what the condition's lowering emits from
the state after `LABEL(start)`, and `bodyCode` exactly what the body's
lowering emits after the `IF_FALSE`. -/
theorem c5_while_two_label_shape (c : Expr) (b : List Stmt) (st : GenSt) :
    ∃ condCode bodyCode condOperand,
      (visitStmtG (.whileStatement c b) st).code =
        st.code ++
          [⟨"LABEL", some (labelName (st.label_counter + 1)), none, none⟩] ++
          condCode ++
          [⟨"IF_FALSE", some condOperand, some (labelName (st.label_counter + 2)), none⟩] ++
          bodyCode ++
          [⟨"GOTO", some (labelName (st.label_counter + 1)), none, none⟩,
           ⟨"LABEL", some (labelName (st.label_counter + 2)), none, none⟩] ∧
      condOperand =
        (visitExprG c ({ st with
            label_counter := st.label_counter + 2,
            code := st.code ++
              [⟨"LABEL", some (labelName (st.label_counter + 1)), none, none⟩] })).1 ∧
      ((visitExprG c ({ st with
            label_counter := st.label_counter + 2,
            code := st.code ++
              [⟨"LABEL", some (labelName (st.label_counter + 1)), none, none⟩] })).2).code =
        st.code ++
          [⟨"LABEL", some (labelName (st.label_counter + 1)), none, none⟩] ++ condCode ∧
      (visitStmtsG b
          ({ (visitExprG c ({ st with
              label_counter := st.label_counter + 2,
              code := st.code ++
                [⟨"LABEL", some (labelName (st.label_counter + 1)), none, none⟩] })).2 with
            code := ((visitExprG c ({ st with
                label_counter := st.label_counter + 2,
                code := st.code ++
                  [⟨"LABEL", some (labelName (st.label_counter + 1)), none, none⟩] })).2).code
              ++ [⟨"IF_FALSE", some condOperand,
                    some (labelName (st.label_counter + 2)), none⟩] })).code =
        ((visitExprG c ({ st with
            label_counter := st.label_counter + 2,
            code := st.code ++
              [⟨"LABEL", some (labelName (st.label_counter + 1)), none, none⟩] })).2).code
          ++ [⟨"IF_FALSE", some condOperand,
                some (labelName (st.label_counter + 2)), none⟩] ++ bodyCode ∧
      labelName (st.label_counter + 1) ≠ labelName (st.label_counter + 2) := by
  obtain ⟨d1, h1⟩ := visitExprG_code_append c
    ({ st with
        label_counter := st.label_counter + 2,
        code := st.code ++
          [⟨"LABEL", some (labelName (st.label_counter + 1)), none, none⟩] })
  rcases hE : visitExprG c
    ({ st with
        label_counter := st.label_counter + 2,
        code := st.code ++
          [⟨"LABEL", some (labelName (st.label_counter + 1)), none, none⟩] })
    with ⟨cv, st1⟩
  rw [hE] at h1
  simp only at h1
  obtain ⟨d2, h2⟩ := visitStmtsG_code_append b
    ({ st1 with code := st1.code ++
      [⟨"IF_FALSE", some cv, some (labelName (st.label_counter + 2)), none⟩] })
  refine ⟨d1, d2, cv, ?_, ?_, ?_, ?_, ?_⟩
  · simp only [visitStmtG, hE]
    rw [h2]
    simp [h1]
  · simp only [hE]
  · simp only [hE]
    exact h1
  · simp only [hE]
    rw [h2]
  · exact labelName_ne _ _ (by omega) (by omega) (by omega)


/-! ## C2: lexer totality and failure classification -/

theorem getLast?_cons_some {α : Type} (a x : α) (l : List α)
    (h : l.getLast? = some x) : (a :: l).getLast? = some x := by
  cases l with
  | nil => simp at h
  | cons y ys => rw [List.getLast?_cons_cons]; exact h

theorem lexCons_ok (tok : Token) (r : Except LexErr (List Token)) (ts : List Token)
    (h : lexCons tok r = .ok ts) : ∃ ts', r = .ok ts' ∧ ts = tok :: ts' := by
  cases r with
  | ok ts' =>
    refine ⟨ts', rfl, ?_⟩
    simpa [lexCons] using h.symm
  | error e => simp [lexCons] at h

theorem lexCons_error (tok : Token) (r : Except LexErr (List Token)) (e : LexErr)
    (h : lexCons tok r = .error e) : r = .error e := by
  cases r with
  | ok ts' => simp [lexCons] at h
  | error e2 => simpa [lexCons] using h

/-- A successful `read_string` leaves a suffix of its input as the rest. -/
theorem readStringAux_suffix : ∀ (cs : List Char) (l c : Nat) (v rest2 : List Char)
    (l2 c2 : Nat), readStringAux cs l c = .ok (v, rest2, l2, c2) →
    List.IsSuffix rest2 cs
  | [], l, c, v, r2, l2, c2 => by
    intro h
    simp [readStringAux] at h
  | ch :: rest, l, c, v, r2, l2, c2 => by
    intro h
    rw [readStringAux.eq_def] at h
    simp only at h
    by_cases h1 : ch = '"'
    · rw [if_pos h1] at h
      simp only [Except.ok.injEq, Prod.mk.injEq] at h
      obtain ⟨hv, hr, hl, hc⟩ := h
      rw [← hr]
      exact List.suffix_cons _ _
    · rw [if_neg h1] at h
      by_cases h2 : ch = '\\'
      · rw [if_pos h2] at h
        cases rest with
        | nil => simp at h
        | cons cb restb =>
          simp only at h
          rcases hrec : readStringAux restb (if cb = '\n' then l + 1 else l)
              (if cb = '\n' then 1 else c + 2) with e | ⟨v3, r3, l3, c3⟩
          · rw [hrec] at h
            simp at h
          · rw [hrec] at h
            simp only [Except.ok.injEq, Prod.mk.injEq] at h
            obtain ⟨hv, hr, hl, hc⟩ := h
            rw [← hr]
            have hs := readStringAux_suffix restb _ _ v3 r3 l3 c3 hrec
            exact hs.trans ((List.suffix_cons _ _).trans (List.suffix_cons _ _))
      · rw [if_neg h2] at h
        rcases hrec : readStringAux rest (if ch = '\n' then l + 1 else l)
            (if ch = '\n' then 1 else c + 1) with e | ⟨v3, r3, l3, c3⟩
        · rw [hrec] at h
          simp at h
        · rw [hrec] at h
          simp only [Except.ok.injEq, Prod.mk.injEq] at h
          obtain ⟨hv, hr, hl, hc⟩ := h
          rw [← hr]
          have hs := readStringAux_suffix rest _ _ v3 r3 l3 c3 hrec
          exact hs.trans (List.suffix_cons _ _)

theorem lexGo_zero (cs : List Char) (line col : Nat) :
    lexGo 0 cs line col = .ok [⟨.EOF, "", line, col⟩] := by
  cases cs <;> rfl

theorem lexGo_nil (fuel line col : Nat) :
    lexGo (fuel + 1) [] line col = .ok [⟨.EOF, "", line, col⟩] := rfl

/-- One-step unfolding of the lexer loop on a non-empty input. -/
theorem lexGo_succ_cons (fuel : Nat) (c : Char) (rest : List Char) (line col : Nat) :
    lexGo (fuel + 1) (c :: rest) line col =
    (if isWs c then
      lexGo fuel rest line (col + 1)
    else if c == '/' && rest.headD ' ' == '/' && !rest.isEmpty then
      let skipped := rest.takeWhile (fun x => x ≠ '\n')
      lexGo fuel (rest.dropWhile (fun x => x ≠ '\n')) line (col + 1 + skipped.length)
    else if c = '\n' then
      lexCons ⟨.NEWLINE, "\n", line, col⟩ (lexGo fuel rest (line + 1) 1)
    else if c.isDigit then
      let ds := (c :: rest).takeWhile isNumChar
      lexCons ⟨.NUMBER, String.mk ds, line, col⟩
        (lexGo fuel ((c :: rest).dropWhile isNumChar) line (col + ds.length))
    else if c = '"' then
      match readStringAux rest line (col + 1) with
      | .error l => .error (.unterminatedString l)
      | .ok (v, rest2, line2, col2) =>
        lexCons ⟨.STRING, String.mk v, line, col⟩ (lexGo fuel rest2 line2 col2)
    else if c.isAlpha || c = '_' then
      let ds := (c :: rest).takeWhile isIdentChar
      let value := String.mk ds
      lexCons ⟨keywordType value, value, line, col⟩
        (lexGo fuel ((c :: rest).dropWhile isIdentChar) line (col + ds.length))
    else if isOpStart c then
      match rest with
      | b :: rest2 =>
        match twoCharOp c b with
        | some tt =>
          lexCons ⟨tt, String.mk [c, b], line, col⟩ (lexGo fuel rest2 line (col + 2))
        | none =>
          match oneCharOp c with
          | some tt =>
            lexCons ⟨tt, String.mk [c], line, col⟩ (lexGo fuel rest line (col + 1))
          | none => .error (.unknownChar c line col)
      | [] =>
        match oneCharOp c with
        | some tt =>
          lexCons ⟨tt, String.mk [c], line, col⟩ (lexGo fuel [] line (col + 2))
        | none => .error (.unknownChar c line col)
    else if c = '(' then
      lexCons ⟨.LPAREN, "(", line, col⟩ (lexGo fuel rest line (col + 1))
    else if c = ')' then
      lexCons ⟨.RPAREN, ")", line, col⟩ (lexGo fuel rest line (col + 1))
    else if c = '{' then
      lexCons ⟨.LBRACE, "\x7b", line, col⟩ (lexGo fuel rest line (col + 1))
    else if c = '}' then
      lexCons ⟨TokenType.RBRACE, "\x7d", line, col⟩ (lexGo fuel rest line (col + 1))
    else if c = ';' then
      lexCons ⟨.SEMICOLON, ";", line, col⟩ (lexGo fuel rest line (col + 1))
    else if c = '*' then
      lexCons ⟨.MULTIPLY, "*", line, col⟩ (lexGo fuel rest line (col + 1))
    else if c = '/' then
      lexCons ⟨.DIVIDE, "/", line, col⟩ (lexGo fuel rest line (col + 1))
    else
      .error (.unknownChar c line col)) := rfl

theorem LexClass_mono {r : Except LexErr (List Token)} {cs1 cs2 : List Char}
    (h : LexClass r cs1) (hs : List.Sublist cs1 cs2) : LexClass r cs2 :=
  ⟨h.1, fun l hl => hs.mem (h.2.1 l hl), fun ch l k hk => hs.mem (h.2.2 ch l k hk)⟩

theorem LexClass_eof (line col : Nat) (cs : List Char) :
    LexClass (.ok [⟨TokenType.EOF, "", line, col⟩]) cs := by
  refine ⟨fun ts hts => ?_, fun l hl => Except.noConfusion hl,
    fun ch l k hk => Except.noConfusion hk⟩
  obtain rfl : [(⟨TokenType.EOF, "", line, col⟩ : Token)] = ts :=
    Except.ok.inj hts
  exact ⟨line, col, rfl⟩

theorem LexClass_lexCons (tok : Token) {r : Except LexErr (List Token)}
    {cs : List Char} (h : LexClass r cs) : LexClass (lexCons tok r) cs := by
  cases r with
  | ok ts0 =>
    refine ⟨fun ts hts => ?_, fun l hl => ?_, fun ch l k hk => ?_⟩
    · obtain rfl : tok :: ts0 = ts := Except.ok.inj hts
      obtain ⟨l2, c2, hlast⟩ := h.1 ts0 rfl
      exact ⟨l2, c2, getLast?_cons_some tok _ _ hlast⟩
    · exact Except.noConfusion hl
    · exact Except.noConfusion hk
  | error e =>
    refine ⟨fun ts hts => Except.noConfusion hts, fun l hl => ?_, fun ch l k hk => ?_⟩
    · exact h.2.1 l hl
    · exact h.2.2 ch l k hk

theorem LexClass_unterminated (line : Nat) (cs : List Char) (hq : '"' ∈ cs) :
    LexClass (.error (.unterminatedString line)) cs := by
  refine ⟨fun ts hts => Except.noConfusion hts, fun l _ => hq, fun ch l k hk => ?_⟩
  exact absurd (Except.error.inj hk) (by simp)

theorem LexClass_unknown (c : Char) (line col : Nat) (cs : List Char) (hc : c ∈ cs) :
    LexClass (.error (.unknownChar c line col)) cs := by
  refine ⟨fun ts hts => Except.noConfusion hts, fun l hl => ?_, fun ch l k hk => ?_⟩
  · exact absurd (Except.error.inj hl) (by simp)
  · obtain ⟨rfl, _, _⟩ : ch = c ∧ l = line ∧ k = col := by
      have := Except.error.inj hk
      exact ⟨(LexErr.unknownChar.inj this.symm).1, (LexErr.unknownChar.inj this.symm).2.1,
        (LexErr.unknownChar.inj this.symm).2.2⟩
    exact hc

/-- Every lexer-loop outcome is classified: successes end in an EOF token,
unterminated-string errors require a quote in the remaining input, and
unknown-character errors name a character of the remaining input. -/
theorem lexGo_class : ∀ (fuel : Nat) (cs : List Char) (line col : Nat),
    LexClass (lexGo fuel cs line col) cs := by
  intro fuel
  induction fuel with
  | zero =>
    intro cs line col
    rw [lexGo_zero]
    exact LexClass_eof line col cs
  | succ fuel ih =>
    intro cs line col
    cases cs with
    | nil =>
      rw [lexGo_nil]
      exact LexClass_eof line col []
    | cons c rest =>
      rw [lexGo_succ_cons]
      have hsub : List.Sublist rest (c :: rest) := (List.suffix_cons c rest).sublist
      by_cases h1 : isWs c = true
      · rw [if_pos h1]
        exact LexClass_mono (ih rest line (col + 1)) hsub
      rw [if_neg h1]
      by_cases h2 : (c == '/' && rest.headD ' ' == '/' && !rest.isEmpty) = true
      · rw [if_pos h2]
        exact LexClass_mono (ih _ line _) ((List.dropWhile_sublist _).trans hsub)
      rw [if_neg h2]
      by_cases h3 : c = '\n'
      · rw [if_pos h3]
        exact LexClass_lexCons _ (LexClass_mono (ih rest (line + 1) 1) hsub)
      rw [if_neg h3]
      by_cases h4 : c.isDigit = true
      · rw [if_pos h4]
        exact LexClass_lexCons _ (LexClass_mono (ih _ line _) (List.dropWhile_sublist _))
      rw [if_neg h4]
      by_cases h5 : c = '"'
      · rw [if_pos h5]
        rcases hrs : readStringAux rest line (col + 1) with l | ⟨v, rest2, line2, col2⟩
        · refine LexClass_unterminated l _ ?_
          rw [h5]
          exact List.mem_cons_self _ _
        · exact LexClass_lexCons _ (LexClass_mono (ih rest2 line2 col2)
            (((readStringAux_suffix rest line (col + 1) v rest2 line2 col2 hrs).sublist).trans
              hsub))
      rw [if_neg h5]
      by_cases h6 : (c.isAlpha || c = '_') = true
      · rw [if_pos h6]
        exact LexClass_lexCons _ (LexClass_mono (ih _ line _) (List.dropWhile_sublist _))
      rw [if_neg h6]
      by_cases h7 : isOpStart c = true
      · rw [if_pos h7]
        cases rest with
        | nil =>
          simp only
          rcases hoc : oneCharOp c with _ | tt
          · exact LexClass_unknown c line col _ (List.mem_cons_self c [])
          · exact LexClass_lexCons _ (LexClass_mono (ih [] line (col + 2))
              (List.nil_sublist _))
        | cons b rest2 =>
          simp only
          rcases htc : twoCharOp c b with _ | tt
          · rcases hoc : oneCharOp c with _ | tt1
            · exact LexClass_unknown c line col _ (List.mem_cons_self c _)
            · exact LexClass_lexCons _ (LexClass_mono (ih (b :: rest2) line (col + 1)) hsub)
          · exact LexClass_lexCons _ (LexClass_mono (ih rest2 line (col + 2))
              (((List.suffix_cons b rest2).sublist).trans hsub))
      rw [if_neg h7]
      by_cases h8 : c = '('
      · rw [if_pos h8]
        exact LexClass_lexCons _ (LexClass_mono (ih rest line (col + 1)) hsub)
      rw [if_neg h8]
      by_cases h9 : c = ')'
      · rw [if_pos h9]
        exact LexClass_lexCons _ (LexClass_mono (ih rest line (col + 1)) hsub)
      rw [if_neg h9]
      by_cases h10 : c = '{'
      · rw [if_pos h10]
        exact LexClass_lexCons _ (LexClass_mono (ih rest line (col + 1)) hsub)
      rw [if_neg h10]
      by_cases h11 : c = '}'
      · rw [if_pos h11]
        exact LexClass_lexCons _ (LexClass_mono (ih rest line (col + 1)) hsub)
      rw [if_neg h11]
      by_cases h12 : c = ';'
      · rw [if_pos h12]
        exact LexClass_lexCons _ (LexClass_mono (ih rest line (col + 1)) hsub)
      rw [if_neg h12]
      by_cases h13 : c = '*'
      · rw [if_pos h13]
        exact LexClass_lexCons _ (LexClass_mono (ih rest line (col + 1)) hsub)
      rw [if_neg h13]
      by_cases h14 : c = '/'
      · rw [if_pos h14]
        exact LexClass_lexCons _ (LexClass_mono (ih rest line (col + 1)) hsub)
      rw [if_neg h14]
      exact LexClass_unknown c line col _ (List.mem_cons_self c rest)

/-- C2, counterexample to the claim as stated: the one-character input `@`
contains no double quote at all, yet `tokenize` fails on it — with an
unknown-character error naming line 1, column 1 — so unterminated strings
are not the only inputs that make the lexer fail. -/
theorem c2_only_unterminated_counterexample :
    tokenize "@" = .error (.unknownChar '@' 1 1) ∧ '"' ∉ ("@").toList :=
  ⟨rfl, by decide⟩

/-- C2 (corrected): for every input string, `tokenize` either returns a
token sequence whose last token is an EOF token, or fails; a failure is
either an unterminated-string error — which names a line and can only
arise when the input contains a double quote — or an unknown-character
error naming a character that occurs in the input. -/
theorem c2_tokenize_classification (s : String) :
    (∀ ts, tokenize s = .ok ts →
      ∃ l2 c2, ts.getLast? = some ⟨TokenType.EOF, "", l2, c2⟩) ∧
    (∀ l, tokenize s = .error (.unterminatedString l) → '"' ∈ s.toList) ∧
    (∀ c l k, tokenize s = .error (.unknownChar c l k) → c ∈ s.toList) :=
  lexGo_class s.toList.length s.toList 1 1

/-- C2, witness: the classification applied at concrete inputs — a
successful run on `;`, an unterminated string `"abc`, and an unknown
character in `x@`. -/
theorem c2_tokenize_classification_witness :
    (∃ l2 c2, ([⟨TokenType.SEMICOLON, ";", 1, 1⟩, ⟨TokenType.EOF, "", 1, 2⟩] :
      List Token).getLast? = some ⟨TokenType.EOF, "", l2, c2⟩) ∧
    '"' ∈ ("\"abc").toList ∧ '@' ∈ ("x@").toList :=
  ⟨(c2_tokenize_classification ";").1 _ rfl,
   (c2_tokenize_classification "\"abc").2.1 1 rfl,
   (c2_tokenize_classification "x@").2.2 '@' 1 2 rfl⟩
